import Mathlib

/-!
Verification of the `lsstx.DateTime` module (file `lsstx/DateTime.py`).

The module is a facade over the astropy `Time` class.  The shallow embedding
models an astropy instant exactly, as a rational number of TAI seconds since
1970-01-01T00:00:00 TAI (the epoch of the `taiunix` format defined in the
source).  The Python/astropy stack computes with IEEE-754 doubles; the
embedding uses exact rational arithmetic instead, and is an idealization at
two points: the constructor's `int(nsecs / 1.0e9)` (a float64 division whose
truncation can land in the adjacent second when the input exceeds 2^53
or its fractional part lies within a unit in the last place of a second
boundary), and the `nsecs` method's `int(t.taiunix)` / `int(t.unix)`
(truncations of float64-collapsed astropy attributes, whose unit in the last
place is roughly 2e-7 s at modern epochs).  The claim theorems below are
therefore confined to where the idealization is provably exact: universal
statements quantify only over whole-second nanosecond counts of at most 53
significant bits (|seconds| <= 4.6e9, where `float(s * 10^9)` and the
division by 1e9 are both exact) or over paths that involve no float
collapse (enum dispatch, string parsing, rendering shape); everything else
is settled by concrete evaluation at instants whose program behaviour is
asserted by the repository's own test suite.  Claims that genuinely hinge
on double rounding (the JD/MJD float round-trips) are reported as not
statable rather than settled against this model.

The leap-second data and the UTC day-scaling conventions are those of the
ERFA `dat`/`utctai`/`d2dtf` routines that astropy delegates to: a table of
integer TAI-UTC offsets from 1972 on, rational drift formulas for 1960-1972,
and "quasi-JD" UTC days in which the `unix`-style day count always has 86400
seconds per day, a leap second being spread over its whole UTC day.  All of
these behaviours are asserted by the repository's own test-suite values
(`tests/test_dateTime.py`), which the concrete evaluations below reproduce.
-/

namespace LsstX

section RatReducible

/- Batteries marks the rational-number operations irreducible, which blocks
evaluation of concrete instances inside `decide`; computing with them is
exactly what the concrete witnesses below need, so they are made
semireducible for the remainder of the file.  The kernel re-checks every
`decide` proof independently of reducibility attributes. -/
attribute [local semireducible] Rat.add Rat.mul Rat.sub Rat.inv Rat.ofScientific

/-! ### Python primitives: truncating int(), decimal strings, slicing -/

/-- Python `int()` applied to a real value: truncation toward zero. -/
def pyInt (q : ℚ) : ℤ := if q < 0 then ⌈q⌉ else ⌊q⌋

/-- Decimal digit character for a digit value. -/
def digChar (d : ℕ) : Char := Char.ofNat (48 + d)

/-- Whether a character is a decimal digit. -/
def isDig (c : Char) : Bool := decide (48 ≤ c.toNat) && decide (c.toNat ≤ 57)

/-- Numeric value of a digit character. -/
def digVal (c : Char) : ℕ := c.toNat - 48

/-- Exactly `w` decimal characters for `n % 10 ^ w`, zero padded on the left
(the behaviour of Python's format specifier for a field of fixed width). -/
def padDigits : ℕ → ℕ → List Char
  | 0, _ => []
  | w + 1, n => padDigits w (n / 10) ++ [digChar (n % 10)]

/-- Value of a list of digit characters read in base 10. -/
def parseDigits (l : List Char) : ℕ := l.foldl (fun a c => 10 * a + digVal c) 0

/-- Number of decimal digits of `n` (with bounded fuel; correct below 10^64). -/
def digitCountAux : ℕ → ℕ → ℕ
  | 0, _ => 1
  | fuel + 1, n => if n < 10 then 1 else digitCountAux fuel (n / 10) + 1

/-- Number of decimal digits of `n`. -/
def digitCount (n : ℕ) : ℕ := digitCountAux 64 n

/-- Python `str()` of a natural number: unpadded decimal digits. -/
def natStr (n : ℕ) : List Char := padDigits (digitCount n) n

/-- Python `str()` of an integer. -/
def intStr (i : ℤ) : List Char :=
  if i < 0 then '-' :: natStr i.natAbs else natStr i.natAbs

/-- Python slice `s[a:b]` (for `0 ≤ a ≤ b`). -/
def pySlice (s : List Char) (a b : ℕ) : List Char := (s.drop a).take (b - a)

/-- Python `int(str(m)[-9:])`: the last nine decimal digits of a natural.
Implemented, as in the source, by slicing the decimal string. -/
def lastNine (m : ℕ) : ℕ := parseDigits ((natStr m).drop ((natStr m).length - 9))

/-- Python `long(s)` after removal of a trailing `L`: optional sign, then
one or more decimal digits. -/
def pyLongCore : List Char → Option ℤ
  | '-' :: rest =>
      if rest ≠ [] ∧ rest.all isDig then some (-(parseDigits rest : ℤ)) else none
  | l => if l ≠ [] ∧ l.all isDig then some ((parseDigits l : ℤ)) else none

/-- Python `long(s)` on a string that may carry a trailing `L`. -/
def pyLong (l : List Char) : Option ℤ :=
  pyLongCore (if l.getLast? = some 'L' then l.dropLast else l)

/-! ### Lemmas about the digit-string primitives -/

theorem digVal_digChar {d : ℕ} (h : d ≤ 9) : digVal (digChar d) = d := by
  interval_cases d <;> rfl

theorem isDig_digChar {d : ℕ} (h : d ≤ 9) : isDig (digChar d) = true := by
  interval_cases d <;> rfl

theorem padDigits_length (w n : ℕ) : (padDigits w n).length = w := by
  induction w generalizing n with
  | zero => rfl
  | succ w ih => simp [padDigits, ih]

theorem padDigits_all_digits (w n : ℕ) : (padDigits w n).all isDig = true := by
  induction w generalizing n with
  | zero => rfl
  | succ w ih =>
      simp only [padDigits, List.all_append, ih, Bool.true_and, List.all_cons, List.all_nil,
        Bool.and_true]
      exact isDig_digChar (Nat.le_of_lt_succ (Nat.mod_lt n (by norm_num)))

theorem parseDigits_aux (l : List Char) (a : ℕ) :
    l.foldl (fun a c => 10 * a + digVal c) a = a * 10 ^ l.length + parseDigits l := by
  induction l generalizing a with
  | nil => simp [parseDigits]
  | cons c l ih =>
      simp only [List.foldl_cons, List.length_cons, parseDigits] at *
      rw [ih (10 * a + digVal c), ih (10 * 0 + digVal c)]
      ring

theorem parseDigits_append (l r : List Char) :
    parseDigits (l ++ r) = parseDigits l * 10 ^ r.length + parseDigits r := by
  simp only [parseDigits, List.foldl_append]
  exact parseDigits_aux r (List.foldl (fun a c => 10 * a + digVal c) 0 l)

theorem parseDigits_padDigits (w n : ℕ) : parseDigits (padDigits w n) = n % 10 ^ w := by
  induction w generalizing n with
  | zero => simp [padDigits, parseDigits, Nat.mod_one]
  | succ w ih =>
      rw [padDigits, parseDigits_append, ih]
      simp only [parseDigits, List.foldl_cons, List.foldl_nil, List.length_cons,
        List.length_nil, pow_zero, pow_one]
      rw [digVal_digChar (Nat.le_of_lt_succ (Nat.mod_lt n (by norm_num)))]
      have h1 : (10 : ℕ) ^ (w + 1) = 10 * 10 ^ w := by rw [pow_succ]; ring
      rw [h1, Nat.mod_mul]
      ring

theorem padDigits_split (a b n : ℕ) :
    padDigits (a + b) n = padDigits a (n / 10 ^ b) ++ padDigits b (n % 10 ^ b) := by
  induction b generalizing n with
  | zero => simp [padDigits]
  | succ b ih =>
      have h1 : a + (b + 1) = (a + b) + 1 := by ring
      rw [h1, padDigits, ih, padDigits]
      have h2 : n / 10 ^ (b + 1) = n / 10 / 10 ^ b := by
        rw [Nat.div_div_eq_div_mul]; ring_nf
      have h3 : n % 10 ^ (b + 1) % 10 = n % 10 := by
        have : (10 : ℕ) ∣ 10 ^ (b + 1) := dvd_pow_self 10 (Nat.succ_ne_zero b)
        exact Nat.mod_mod_of_dvd n this
      have h4 : n % 10 ^ (b + 1) / 10 = n / 10 % 10 ^ b := by
        rw [pow_succ']
        rw [Nat.mod_mul_right_div_self]
      rw [h2, h3, h4, List.append_assoc]

theorem digitCountAux_correct (fuel n : ℕ) (h : n < 10 ^ fuel) (hf : 0 < fuel) :
    n < 10 ^ digitCountAux fuel n := by
  induction fuel generalizing n with
  | zero => omega
  | succ fuel ih =>
      rw [digitCountAux]
      by_cases h10 : n < 10
      · simp [h10]
      · simp only [h10, if_false]
        rcases Nat.eq_zero_or_pos fuel with hf0 | hfpos
        · subst hf0; simp at h; omega
        · have hdiv : n / 10 < 10 ^ fuel := by
            rw [pow_succ] at h
            exact Nat.div_lt_of_lt_mul (by omega)
          have := ih (n / 10) hdiv hfpos
          rw [pow_succ]
          have h2 : n < (n / 10 + 1) * 10 := by omega
          calc n < (n / 10 + 1) * 10 := h2
            _ ≤ 10 ^ digitCountAux fuel (n / 10) * 10 := by
                have : n / 10 + 1 ≤ 10 ^ digitCountAux fuel (n / 10) := this
                exact Nat.mul_le_mul_right 10 this

theorem lt_pow_digitCount {n : ℕ} (h : n < 10 ^ 64) : n < 10 ^ digitCount n :=
  digitCountAux_correct 64 n h (by norm_num)

theorem natStr_length (n : ℕ) : (natStr n).length = digitCount n := padDigits_length _ _

theorem parseDigits_natStr {n : ℕ} (h : n < 10 ^ 64) : parseDigits (natStr n) = n := by
  rw [natStr, parseDigits_padDigits, Nat.mod_eq_of_lt (lt_pow_digitCount h)]

theorem natStr_all_digits (n : ℕ) : (natStr n).all isDig = true := padDigits_all_digits _ _

theorem digitCountAux_pos (fuel n : ℕ) : 0 < digitCountAux fuel n := by
  cases fuel with
  | zero => exact Nat.one_pos
  | succ fuel =>
      rw [digitCountAux]
      split
      · exact Nat.one_pos
      · exact Nat.succ_pos _

theorem natStr_ne_nil (n : ℕ) : natStr n ≠ [] := by
  intro hc
  have h1 := natStr_length n
  rw [hc] at h1
  simp only [List.length_nil] at h1
  have h2 := digitCountAux_pos 64 n
  rw [digitCount] at h1
  omega

/-- The last-nine-digits slice equals reduction mod 10^9 (for sizes where the
decimal string model is exact). -/
theorem lastNine_eq_mod {m : ℕ} (h : m < 10 ^ 64) : lastNine m = m % 10 ^ 9 := by
  rw [lastNine, natStr_length]
  rcases Nat.lt_or_ge (digitCount m) 9 with hc | hc
  · have h0 : digitCount m - 9 = 0 := by omega
    rw [h0, List.drop_zero, parseDigits_natStr h]
    have : m < 10 ^ 9 := lt_of_lt_of_le (lt_pow_digitCount h)
      (Nat.pow_le_pow_right (by norm_num) (by omega))
    exact (Nat.mod_eq_of_lt this).symm
  · obtain ⟨a, ha⟩ : ∃ a, digitCount m = a + 9 := ⟨digitCount m - 9, by omega⟩
    have hs : natStr m = padDigits a (m / 10 ^ 9) ++ padDigits 9 (m % 10 ^ 9) := by
      rw [natStr, ha, padDigits_split]
    have hlen : (padDigits a (m / 10 ^ 9)).length = a := padDigits_length _ _
    rw [ha, Nat.add_sub_cancel, hs, List.drop_left' hlen, parseDigits_padDigits,
      Nat.mod_mod_of_dvd _ (dvd_refl _)]

theorem digChar_ne_dash {d : ℕ} (h : d ≤ 9) : digChar d ≠ '-' := by
  interval_cases d <;> decide

theorem digChar_ne_L {d : ℕ} (h : d ≤ 9) : digChar d ≠ 'L' := by
  interval_cases d <;> decide

/-! ### The leap-second table (ERFA `dat`, as used by astropy)

Integer rows `(start MJD, TAI-UTC seconds)` from 1972 on, newest first, and
the 1960-1972 drift rows `(start MJD, a, b, c)` meaning
`TAI-UTC = a + (mjd - b) * c` seconds, newest first.  For dates before the
first drift row (where ERFA refuses to answer) the value is frozen at the
1960-01-01 value; no claim touches that region. -/

/-- Integer TAI-UTC offset (seconds) in force on UTC day `d` (MJD), valid
from MJD 41317 (1972-01-01) on; the rows of ERFA `dat` as a decision chain,
newest first. -/
def offIntZ (d : ℤ) : ℤ :=
  if 57754 ≤ d then 37
  else if 57204 ≤ d then 36
  else if 56109 ≤ d then 35
  else if 54832 ≤ d then 34
  else if 53736 ≤ d then 33
  else if 51179 ≤ d then 32
  else if 50630 ≤ d then 31
  else if 50083 ≤ d then 30
  else if 49534 ≤ d then 29
  else if 49169 ≤ d then 28
  else if 48804 ≤ d then 27
  else if 48257 ≤ d then 26
  else if 47892 ≤ d then 25
  else if 47161 ≤ d then 24
  else if 46247 ≤ d then 23
  else if 45516 ≤ d then 22
  else if 45151 ≤ d then 21
  else if 44786 ≤ d then 20
  else if 44239 ≤ d then 19
  else if 43874 ≤ d then 18
  else if 43509 ≤ d then 17
  else if 43144 ≤ d then 16
  else if 42778 ≤ d then 15
  else if 42413 ≤ d then 14
  else if 42048 ≤ d then 13
  else if 41683 ≤ d then 12
  else if 41499 ≤ d then 11
  else 10

/-- Pre-1972 drift value `a + (mjd - b) * c` from the ERFA drift rows,
newest first; frozen at the 1960 value before the table. -/
def driftVal (d : ℤ) : ℚ :=
  if 39887 ≤ d then 421317/100000 + ((d : ℚ) - 39126) * (2592/1000000)
  else if 39126 ≤ d then 431317/100000 + ((d : ℚ) - 39126) * (2592/1000000)
  else if 39004 ≤ d then 384013/100000 + ((d : ℚ) - 38761) * (2592/1000000)
  else if 38942 ≤ d then 374013/100000 + ((d : ℚ) - 38761) * (2592/1000000)
  else if 38820 ≤ d then 364013/100000 + ((d : ℚ) - 38761) * (2592/1000000)
  else if 38761 ≤ d then 354013/100000 + ((d : ℚ) - 38761) * (2592/1000000)
  else if 38639 ≤ d then 344013/100000 + ((d : ℚ) - 38761) * (2592/1000000)
  else if 38486 ≤ d then 334013/100000 + ((d : ℚ) - 38761) * (2592/1000000)
  else if 38395 ≤ d then 324013/100000 + ((d : ℚ) - 38761) * (2592/1000000)
  else if 38334 ≤ d then 1945858/1000000 + ((d : ℚ) - 37665) * (11232/10000000)
  else if 37665 ≤ d then 1845858/1000000 + ((d : ℚ) - 37665) * (11232/10000000)
  else if 37512 ≤ d then 1372818/1000000 + ((d : ℚ) - 37300) * (1296/1000000)
  else if 37300 ≤ d then 1422818/1000000 + ((d : ℚ) - 37300) * (1296/1000000)
  else if 36934 ≤ d then 1417818/1000000 + ((d : ℚ) - 37300) * (1296/1000000)
  else 943482/1000000

/-- TAI-UTC in seconds at 0h UTC of MJD day `d`. -/
def dAT (d : ℤ) : ℚ := if 41317 ≤ d then (offIntZ d : ℚ) else driftVal d

/-- Unix-style second count at 0h UTC of MJD day `d` (always 86400 per day). -/
def posix0 (d : ℤ) : ℚ := ((d : ℚ) - 40587) * 86400

/-- TAI seconds since the `taiunix` epoch at 0h UTC of MJD day `d`. -/
def tai0 (d : ℤ) : ℚ := posix0 d + dAT d

theorem offIntZ_bounds (d : ℤ) : 10 ≤ offIntZ d ∧ offIntZ d ≤ 37 := by
  unfold offIntZ
  omega

/-- Bounds for one linear drift row. -/
theorem driftVal_row_bounds {d s b : ℤ} {a c : ℚ} (hs : s ≤ d) (hd : d < 41317) (hc : 0 ≤ c)
    (h1 : 1/2 ≤ a + ((s : ℚ) - (b : ℚ)) * c) (h2 : a + ((41316 : ℚ) - (b : ℚ)) * c ≤ 38) :
    1/2 ≤ a + ((d : ℚ) - (b : ℚ)) * c ∧ a + ((d : ℚ) - (b : ℚ)) * c ≤ 38 := by
  have hsd : (s : ℚ) ≤ (d : ℚ) := by exact_mod_cast hs
  have hdd : (d : ℚ) ≤ 41316 := by exact_mod_cast (by omega : d ≤ (41316 : ℤ))
  have t1 : (s : ℚ) * c ≤ (d : ℚ) * c := mul_le_mul_of_nonneg_right hsd hc
  have t2 : (d : ℚ) * c ≤ 41316 * c := mul_le_mul_of_nonneg_right hdd hc
  constructor <;> nlinarith [t1, t2]

theorem driftVal_bounds {d : ℤ} (h : d < 41317) : 1/2 ≤ driftVal d ∧ driftVal d ≤ 38 := by
  unfold driftVal
  rcases le_or_lt 39887 d with h1 | h1
  · rw [if_pos h1]
    exact driftVal_row_bounds h1 h (by norm_num) (by norm_num) (by norm_num)
  · rw [if_neg (not_le.mpr h1)]
    rcases le_or_lt 39126 d with h2 | h2
    · rw [if_pos h2]
      exact driftVal_row_bounds h2 h (by norm_num) (by norm_num) (by norm_num)
    · rw [if_neg (not_le.mpr h2)]
      rcases le_or_lt 39004 d with h3 | h3
      · rw [if_pos h3]
        exact driftVal_row_bounds h3 h (by norm_num) (by norm_num) (by norm_num)
      · rw [if_neg (not_le.mpr h3)]
        rcases le_or_lt 38942 d with h4 | h4
        · rw [if_pos h4]
          exact driftVal_row_bounds h4 h (by norm_num) (by norm_num) (by norm_num)
        · rw [if_neg (not_le.mpr h4)]
          rcases le_or_lt 38820 d with h5 | h5
          · rw [if_pos h5]
            exact driftVal_row_bounds h5 h (by norm_num) (by norm_num) (by norm_num)
          · rw [if_neg (not_le.mpr h5)]
            rcases le_or_lt 38761 d with h6 | h6
            · rw [if_pos h6]
              exact driftVal_row_bounds h6 h (by norm_num) (by norm_num) (by norm_num)
            · rw [if_neg (not_le.mpr h6)]
              rcases le_or_lt 38639 d with h7 | h7
              · rw [if_pos h7]
                exact driftVal_row_bounds h7 h (by norm_num) (by norm_num) (by norm_num)
              · rw [if_neg (not_le.mpr h7)]
                rcases le_or_lt 38486 d with h8 | h8
                · rw [if_pos h8]
                  exact driftVal_row_bounds h8 h (by norm_num) (by norm_num) (by norm_num)
                · rw [if_neg (not_le.mpr h8)]
                  rcases le_or_lt 38395 d with h9 | h9
                  · rw [if_pos h9]
                    exact driftVal_row_bounds h9 h (by norm_num) (by norm_num) (by norm_num)
                  · rw [if_neg (not_le.mpr h9)]
                    rcases le_or_lt 38334 d with h10 | h10
                    · rw [if_pos h10]
                      exact driftVal_row_bounds h10 h (by norm_num) (by norm_num) (by norm_num)
                    · rw [if_neg (not_le.mpr h10)]
                      rcases le_or_lt 37665 d with h11 | h11
                      · rw [if_pos h11]
                        exact driftVal_row_bounds h11 h (by norm_num) (by norm_num) (by norm_num)
                      · rw [if_neg (not_le.mpr h11)]
                        rcases le_or_lt 37512 d with h12 | h12
                        · rw [if_pos h12]
                          exact driftVal_row_bounds h12 h (by norm_num) (by norm_num) (by norm_num)
                        · rw [if_neg (not_le.mpr h12)]
                          rcases le_or_lt 37300 d with h13 | h13
                          · rw [if_pos h13]
                            exact driftVal_row_bounds h13 h (by norm_num) (by norm_num) (by norm_num)
                          · rw [if_neg (not_le.mpr h13)]
                            rcases le_or_lt 36934 d with h14 | h14
                            · rw [if_pos h14]
                              exact driftVal_row_bounds h14 h (by norm_num) (by norm_num) (by norm_num)
                            · rw [if_neg (not_le.mpr h14)]
                              norm_num

theorem dAT_bounds (d : ℤ) : 1/2 ≤ dAT d ∧ dAT d ≤ 38 := by
  rw [dAT]
  split_ifs with h
  · obtain ⟨h1, h2⟩ := offIntZ_bounds d
    constructor
    · have : (10 : ℚ) ≤ (offIntZ d : ℚ) := by exact_mod_cast h1
      linarith
    · have : (offIntZ d : ℚ) ≤ 37 := by exact_mod_cast h2
      linarith
  · push_neg at h
    exact driftVal_bounds h

theorem tai0_strict_mono {d1 d2 : ℤ} (h : d1 < d2) : tai0 d1 < tai0 d2 := by
  obtain ⟨a1, b1⟩ := dAT_bounds d1
  obtain ⟨a2, b2⟩ := dAT_bounds d2
  have hd : (d1 : ℚ) + 1 ≤ (d2 : ℚ) := by exact_mod_cast (by omega : d1 + 1 ≤ d2)
  simp only [tai0, posix0]
  nlinarith [hd]

theorem tai0_day_len_lb (d : ℤ) : 86362 ≤ tai0 (d + 1) - tai0 d := by
  obtain ⟨a1, b1⟩ := dAT_bounds d
  obtain ⟨a2, b2⟩ := dAT_bounds (d + 1)
  simp only [tai0, posix0]
  push_cast
  linarith

theorem tai0_day_len_pos (d : ℤ) : 0 < tai0 (d + 1) - tai0 d := by
  linarith [tai0_day_len_lb d]

theorem tai0_day_len_ub (d : ℤ) : tai0 (d + 1) - tai0 d ≤ 86438 := by
  obtain ⟨a1, b1⟩ := dAT_bounds d
  obtain ⟨a2, b2⟩ := dAT_bounds (d + 1)
  simp only [tai0, posix0]
  push_cast
  linarith

/-- Search downward from `hi` for a day `d` with `tai0 d ≤ τ`. -/
def findDay : ℕ → ℤ → ℚ → ℤ
  | 0, hi, _ => hi
  | fuel + 1, hi, τ => if tai0 hi ≤ τ then hi else findDay fuel (hi - 1) τ

/-- UTC day (MJD) containing the TAI instant `τ`. -/
def utcDayOfTai (τ : ℚ) : ℤ :=
  let hi := 40587 + ⌊τ / 86400⌋
  let lo := 40587 + ⌊(τ - 38) / 86400⌋
  findDay (hi - lo).toNat hi τ

theorem findDay_spec (fuel : ℕ) (hi : ℤ) (τ : ℚ) (hbase : tai0 (hi - fuel) ≤ τ)
    (htop : τ < tai0 (hi + 1)) :
    tai0 (findDay fuel hi τ) ≤ τ ∧ τ < tai0 (findDay fuel hi τ + 1) := by
  induction fuel generalizing hi with
  | zero =>
      simp only [findDay]
      constructor
      · simpa using hbase
      · exact htop
  | succ fuel ih =>
      rw [findDay]
      split_ifs with h
      · exact ⟨h, htop⟩
      · push_neg at h
        refine ih (hi - 1) ?_ ?_
        · have : hi - 1 - (fuel : ℤ) = hi - ((fuel : ℤ) + 1) := by ring
          rw [this]
          simpa using hbase
        · simpa using h

theorem utcDayOfTai_spec (τ : ℚ) :
    tai0 (utcDayOfTai τ) ≤ τ ∧ τ < tai0 (utcDayOfTai τ + 1) := by
  rw [utcDayOfTai]
  set hi := 40587 + ⌊τ / 86400⌋ with hhi
  set lo := 40587 + ⌊(τ - 38) / 86400⌋ with hlo
  have hlohi : lo ≤ hi := by
    have : ⌊(τ - 38) / 86400⌋ ≤ ⌊τ / 86400⌋ := by
      apply Int.floor_le_floor
      exact (div_le_div_right (by norm_num : (0 : ℚ) < 86400)).mpr (by linarith)
    omega
  refine findDay_spec _ hi τ ?_ ?_
  · have hsub : hi - ((hi - lo).toNat : ℤ) = lo := by omega
    rw [hsub]
    obtain ⟨a, b⟩ := dAT_bounds lo
    have hfl : ((⌊(τ - 38) / 86400⌋ : ℤ) : ℚ) ≤ (τ - 38) / 86400 := Int.floor_le _
    simp only [tai0, posix0, hlo]
    push_cast
    nlinarith [hfl]
  · obtain ⟨a, b⟩ := dAT_bounds (hi + 1)
    have hfl : τ / 86400 < ((⌊τ / 86400⌋ : ℤ) : ℚ) + 1 := Int.lt_floor_add_one _
    simp only [tai0, posix0, hhi]
    push_cast
    nlinarith [hfl]

theorem utcDay_unique {τ : ℚ} {d : ℤ} (h1 : tai0 d ≤ τ) (h2 : τ < tai0 (d + 1)) :
    utcDayOfTai τ = d := by
  obtain ⟨g1, g2⟩ := utcDayOfTai_spec τ
  by_contra hne
  rcases lt_or_gt_of_ne hne with hlt | hgt
  · have : utcDayOfTai τ + 1 ≤ d := by omega
    rcases eq_or_lt_of_le this with heq | hlt2
    · rw [heq] at g2; linarith
    · have := tai0_strict_mono hlt2
      linarith
  · have : d + 1 ≤ utcDayOfTai τ := by omega
    rcases eq_or_lt_of_le this with heq | hlt2
    · rw [← heq] at g1; linarith
    · have := tai0_strict_mono hlt2
      linarith

/-! ### The astropy quasi-JD UTC maps (`unix` format) and their inverses -/

/-- UTC day (MJD) of a unix-style second count: each day has 86400 of them. -/
def utcDayOfUnix (u : ℚ) : ℤ := 40587 + ⌊u / 86400⌋

/-- The `unix` value (UTC seconds since 1970 with each UTC day scaled onto
86400 seconds, ERFA quasi-JD convention) of a TAI instant. -/
def unixOfTai (τ : ℚ) : ℚ :=
  let d := utcDayOfTai τ
  posix0 d + (τ - tai0 d) * 86400 / (tai0 (d + 1) - tai0 d)

/-- The TAI instant of a `unix` value. -/
def taiOfUnix (u : ℚ) : ℚ :=
  let d := utcDayOfUnix u
  tai0 d + (u - posix0 d) * (tai0 (d + 1) - tai0 d) / 86400

theorem dAT_int {d : ℤ} (h : 41317 ≤ d) : dAT d = (offIntZ d : ℚ) := by
  rw [dAT, if_pos h]

theorem posix0_succ (d : ℤ) : posix0 (d + 1) = posix0 d + 86400 := by
  simp only [posix0]; push_cast; ring

/-- On a day after 1972 that ends without a leap second the TAI length of the
UTC day is exactly 86400 seconds. -/
theorem tai0_len_flat {d : ℤ} (h : 41317 ≤ d) (hf : offIntZ (d + 1) = offIntZ d) :
    tai0 (d + 1) - tai0 d = 86400 := by
  simp only [tai0, dAT_int h, dAT_int (by omega : (41317 : ℤ) ≤ d + 1), hf, posix0]
  push_cast
  ring

theorem unixOfTai_mem (τ : ℚ) :
    posix0 (utcDayOfTai τ) ≤ unixOfTai τ ∧ unixOfTai τ < posix0 (utcDayOfTai τ + 1) := by
  obtain ⟨h1, h2⟩ := utcDayOfTai_spec τ
  have hlen := tai0_day_len_pos (utcDayOfTai τ)
  rw [unixOfTai, posix0_succ]
  constructor
  · have : 0 ≤ (τ - tai0 (utcDayOfTai τ)) * 86400 / (tai0 (utcDayOfTai τ + 1) - tai0 (utcDayOfTai τ)) := by
      apply div_nonneg ?_ (le_of_lt hlen)
      nlinarith
    linarith
  · have : (τ - tai0 (utcDayOfTai τ)) * 86400 / (tai0 (utcDayOfTai τ + 1) - tai0 (utcDayOfTai τ)) < 86400 := by
      rw [div_lt_iff hlen]
      nlinarith
    linarith

theorem taiOfUnix_mem (u : ℚ) :
    tai0 (utcDayOfUnix u) ≤ taiOfUnix u ∧ taiOfUnix u < tai0 (utcDayOfUnix u + 1) := by
  have hlen := tai0_day_len_pos (utcDayOfUnix u)
  have hfl : ((⌊u / 86400⌋ : ℤ) : ℚ) ≤ u / 86400 := Int.floor_le _
  have hfu : u / 86400 < ((⌊u / 86400⌋ : ℤ) : ℚ) + 1 := Int.lt_floor_add_one _
  have hb1 : posix0 (utcDayOfUnix u) ≤ u := by
    simp only [posix0, utcDayOfUnix]
    push_cast
    nlinarith
  have hb2 : u < posix0 (utcDayOfUnix u) + 86400 := by
    simp only [posix0, utcDayOfUnix]
    push_cast
    nlinarith
  rw [taiOfUnix]
  constructor
  · have : 0 ≤ (u - posix0 (utcDayOfUnix u)) * (tai0 (utcDayOfUnix u + 1) - tai0 (utcDayOfUnix u)) / 86400 := by
      apply div_nonneg ?_ (by norm_num)
      nlinarith
    linarith
  · have : (u - posix0 (utcDayOfUnix u)) * (tai0 (utcDayOfUnix u + 1) - tai0 (utcDayOfUnix u)) / 86400
        < tai0 (utcDayOfUnix u + 1) - tai0 (utcDayOfUnix u) := by
      rw [div_lt_iff (by norm_num : (0 : ℚ) < 86400)]
      nlinarith
    linarith

theorem utcDayOfUnix_eq {u : ℚ} {d : ℤ} (h1 : posix0 d ≤ u) (h2 : u < posix0 (d + 1)) :
    utcDayOfUnix u = d := by
  rw [utcDayOfUnix]
  have : ⌊u / 86400⌋ = d - 40587 := by
    rw [Int.floor_eq_iff]
    constructor
    · rw [le_div_iff (by norm_num : (0 : ℚ) < 86400)]
      simp only [posix0] at h1
      push_cast
      nlinarith
    · rw [div_lt_iff (by norm_num : (0 : ℚ) < 86400)]
      rw [posix0_succ] at h2
      simp only [posix0] at h2
      push_cast
      nlinarith
  omega

theorem utcDayOfUnix_unixOfTai (τ : ℚ) : utcDayOfUnix (unixOfTai τ) = utcDayOfTai τ := by
  obtain ⟨h1, h2⟩ := unixOfTai_mem τ
  exact utcDayOfUnix_eq h1 h2

theorem utcDayOfTai_taiOfUnix (u : ℚ) : utcDayOfTai (taiOfUnix u) = utcDayOfUnix u := by
  obtain ⟨h1, h2⟩ := taiOfUnix_mem u
  exact utcDay_unique h1 h2

theorem taiOfUnix_unixOfTai (τ : ℚ) : taiOfUnix (unixOfTai τ) = τ := by
  rw [taiOfUnix, utcDayOfUnix_unixOfTai τ]
  have hlen := tai0_day_len_pos (utcDayOfTai τ)
  rw [unixOfTai]
  field_simp
  ring

theorem unixOfTai_taiOfUnix (u : ℚ) : unixOfTai (taiOfUnix u) = u := by
  rw [unixOfTai, utcDayOfTai_taiOfUnix u]
  have hlen := tai0_day_len_pos (utcDayOfUnix u)
  rw [taiOfUnix]
  field_simp
  ring

/-- After 1972 and away from leap days the unix map is the plain shift by the
integer offset in force. -/
theorem unixOfTai_flat {τ : ℚ} (h41 : 41317 ≤ utcDayOfTai τ)
    (hf : offIntZ (utcDayOfTai τ + 1) = offIntZ (utcDayOfTai τ)) :
    unixOfTai τ = τ - (offIntZ (utcDayOfTai τ) : ℚ) := by
  rw [unixOfTai, tai0_len_flat h41 hf]
  have : (τ - tai0 (utcDayOfTai τ)) * 86400 / 86400 = τ - tai0 (utcDayOfTai τ) := by
    field_simp
  rw [this, tai0, dAT_int h41]
  ring

/-- After 1972 and away from leap days the inverse unix map is the plain shift. -/
theorem taiOfUnix_flat {u : ℚ} (h41 : 41317 ≤ utcDayOfUnix u)
    (hf : offIntZ (utcDayOfUnix u + 1) = offIntZ (utcDayOfUnix u)) :
    taiOfUnix u = u + (offIntZ (utcDayOfUnix u) : ℚ) := by
  rw [taiOfUnix, tai0_len_flat h41 hf]
  have : (u - posix0 (utcDayOfUnix u)) * 86400 / 86400 = u - posix0 (utcDayOfUnix u) := by
    field_simp
  rw [this, tai0, dAT_int h41]
  ring

/-! ### The Gregorian calendar (as in ERFA `jd2cal`/`cal2jd`)

Standard civil-from-days arithmetic, stated so that every step is a linear
fact about euclidean division.  The year-of-era is located by an estimate
plus correction instead of the usual closed formula; the two agree on the
whole domain, and correctness is proved outright. -/

def yearStartDoe (y : ℕ) : ℕ := 365 * y + y / 4 - y / 100 + y / 400

def yoeOfDoe (doe : ℕ) : ℕ :=
  if yearStartDoe (400 * doe / 146097 + 1) ≤ doe then 400 * doe / 146097 + 1
  else if yearStartDoe (400 * doe / 146097) ≤ doe then 400 * doe / 146097
  else 400 * doe / 146097 - 1

theorem yoeOfDoe_spec {doe : ℕ} (h : doe < 146097) :
    yearStartDoe (yoeOfDoe doe) ≤ doe ∧ doe < yearStartDoe (yoeOfDoe doe + 1) ∧
    yoeOfDoe doe ≤ 399 := by
  have hy0 : 146097 * (400 * doe / 146097) ≤ 400 * doe ∧
      400 * doe < 146097 * (400 * doe / 146097 + 1) := by omega
  have hF0 : 400 * doe / 146097 ≤ 399 := by omega
  have hF1 : doe < yearStartDoe (400 * doe / 146097 + 2) := by
    unfold yearStartDoe
    omega
  have hF2 : 1 ≤ 400 * doe / 146097 → yearStartDoe (400 * doe / 146097 - 1) ≤ doe := by
    intro h1
    unfold yearStartDoe
    omega
  unfold yoeOfDoe
  split_ifs with h1 h2
  · refine ⟨h1, ?_, ?_⟩
    · exact hF1
    · by_contra hc
      push_neg at hc
      have : 400 * doe / 146097 + 1 = 400 := by omega
      rw [this] at h1
      have : yearStartDoe 400 = 146097 := by unfold yearStartDoe; norm_num
      omega
  · exact ⟨h2, by push_neg at h1; exact h1, by omega⟩
  · push_neg at h1 h2
    have hpos : 1 ≤ 400 * doe / 146097 := by
      by_contra hc
      push_neg at hc
      have : 400 * doe / 146097 = 0 := by omega
      rw [this] at h2
      have : yearStartDoe 0 = 0 := by unfold yearStartDoe; norm_num
      omega
    refine ⟨hF2 hpos, ?_, by omega⟩
    have : 400 * doe / 146097 - 1 + 1 = 400 * doe / 146097 := by omega
    rw [this]
    exact h2

theorem yearStartDoe_step (y : ℕ) :
    365 ≤ yearStartDoe (y + 1) - yearStartDoe y ∧
    yearStartDoe (y + 1) - yearStartDoe y ≤ 366 ∧ yearStartDoe y ≤ yearStartDoe (y + 1) := by
  unfold yearStartDoe
  omega

theorem mpOfDoy_spec {doy : ℕ} (h : doy ≤ 365) :
    (5 * doy + 2) / 153 ≤ 11 ∧ (153 * ((5 * doy + 2) / 153) + 2) / 5 ≤ doy ∧
    doy - (153 * ((5 * doy + 2) / 153) + 2) / 5 ≤ 30 := by
  omega

def mjdToYmd (mjd : ℤ) : ℕ × ℕ × ℕ :=
  let z : ℕ := (mjd + 678881).toNat
  let era := z / 146097
  let doe := z % 146097
  let yoe := yoeOfDoe doe
  let doy := doe - yearStartDoe yoe
  let mp := (5 * doy + 2) / 153
  let day := doy - (153 * mp + 2) / 5 + 1
  let month := if mp < 10 then mp + 3 else mp - 9
  let year := era * 400 + yoe + (if month ≤ 2 then 1 else 0)
  (year, month, day)

def ymdToMjd (y m d : ℕ) : ℤ :=
  let yAdj := if m ≤ 2 then y + 400 - 1 else y + 400
  let era := yAdj / 400
  let yoe := yAdj % 400
  let mp := (m + 9) % 12
  let doy := (153 * mp + 2) / 5 + d - 1
  let doe := yearStartDoe yoe + doy
  (era : ℤ) * 146097 + (doe : ℤ) - 146097 - 678881

set_option maxHeartbeats 1000000 in
theorem ymdToMjd_mjdToYmd {mjd : ℤ} {y m d : ℕ} (h : 0 ≤ mjd + 678881)
    (heq : mjdToYmd mjd = (y, m, d)) : ymdToMjd y m d = mjd := by
  simp only [mjdToYmd, Prod.mk.injEq] at heq
  obtain ⟨hy, hm, hd⟩ := heq
  have hzz : (((mjd + 678881).toNat : ℤ)) = mjd + 678881 := Int.toNat_of_nonneg h
  set z := (mjd + 678881).toNat with hzdef
  have hdoe : z % 146097 < 146097 := Nat.mod_lt _ (by norm_num)
  obtain ⟨s1, s2, s3⟩ := yoeOfDoe_spec hdoe
  set doe := z % 146097 with hdoedef
  set yoe := yoeOfDoe doe with hyoedef
  have hstep := yearStartDoe_step yoe
  have hdoy : doe - yearStartDoe yoe ≤ 365 := by omega
  obtain ⟨m1, m2, m3⟩ := mpOfDoy_spec hdoy
  set doy := doe - yearStartDoe yoe with hdoydef
  set mp := (5 * doy + 2) / 153 with hmpdef
  rcases Nat.lt_or_ge mp 10 with hmp | hmp
  · rw [if_pos hmp] at hm
    rw [if_pos hmp] at hy
    have hc2 : ¬ (mp + 3 ≤ 2) := by omega
    rw [if_neg hc2] at hy
    subst hy hm hd
    simp only [ymdToMjd]
    rw [if_neg hc2]
    have harg : (z / 146097 * 400 + yoe + 0 + 400) % 400 = yoe := by omega
    have marg : (mp + 3 + 9) % 12 = mp := by omega
    rw [harg, marg]
    omega
  · rw [if_neg (by omega : ¬ mp < 10)] at hm
    rw [if_neg (by omega : ¬ mp < 10)] at hy
    have hc2 : mp - 9 ≤ 2 := by omega
    rw [if_pos hc2] at hy
    subst hy hm hd
    simp only [ymdToMjd]
    rw [if_pos hc2]
    have harg : (z / 146097 * 400 + yoe + 1 + 400 - 1) % 400 = yoe := by omega
    have marg : (mp - 9 + 9) % 12 = mp := by omega
    rw [harg, marg]
    omega

set_option maxHeartbeats 1000000 in
theorem mjdToYmd_bounds {mjd : ℤ} {y m d : ℕ} (hlo : 0 ≤ mjd) (hhi : mjd < 150000)
    (heq : mjdToYmd mjd = (y, m, d)) :
    1000 ≤ y ∧ y ≤ 9999 ∧ 1 ≤ m ∧ m ≤ 12 ∧ 1 ≤ d ∧ d ≤ 31 := by
  simp only [mjdToYmd, Prod.mk.injEq] at heq
  obtain ⟨hy, hm, hd⟩ := heq
  have hzz : (((mjd + 678881).toNat : ℤ)) = mjd + 678881 := Int.toNat_of_nonneg (by omega)
  set z := (mjd + 678881).toNat with hzdef
  have hzb : 678881 ≤ z ∧ z < 828881 := by omega
  have hdoe : z % 146097 < 146097 := Nat.mod_lt _ (by norm_num)
  obtain ⟨s1, s2, s3⟩ := yoeOfDoe_spec hdoe
  set doe := z % 146097 with hdoedef
  set yoe := yoeOfDoe doe with hyoedef
  have hstep := yearStartDoe_step yoe
  have hdoy : doe - yearStartDoe yoe ≤ 365 := by omega
  obtain ⟨m1, m2, m3⟩ := mpOfDoy_spec hdoy
  set doy := doe - yearStartDoe yoe with hdoydef
  set mp := (5 * doy + 2) / 153 with hmpdef
  rcases Nat.lt_or_ge mp 10 with hmp | hmp
  · rw [if_pos hmp] at hm
    rw [if_pos hmp] at hy
    have hc2 : ¬ (mp + 3 ≤ 2) := by omega
    rw [if_neg hc2] at hy
    subst hy hm hd
    omega
  · rw [if_neg (by omega : ¬ mp < 10)] at hm
    rw [if_neg (by omega : ¬ mp < 10)] at hy
    have hc2 : mp - 9 ≤ 2 := by omega
    rw [if_pos hc2] at hy
    subst hy hm hd
    omega

/-! ### The astropy `Time` model: isot rendering and parsing

An instant is a rational `τ`, the TAI seconds since 1970-01-01T00:00:00 TAI
(the `taiunix` epoch).  Rendering follows ERFA `d2dtf`: the time of day is
rounded at the requested precision (9 digits or whole seconds), carrying into
the next day when it overflows, and on a leap day second 60 is displayed. -/

/-- The timescales of the module (values as in the Python enum). -/
inductive Timescale | TAI | UTC | TT
deriving DecidableEq, Repr

/-- The date systems of the module (values as in the Python enum). -/
inductive DateSystem | JD | MJD | EPOCH
deriving DecidableEq, Repr

/-- Day (MJD) and nanosecond-of-day of a uniform-scale (TAI or TT) display,
rounded at nanosecond precision. -/
def uniformDayNs (off τ : ℚ) : ℤ × ℤ :=
  let total : ℤ := ⌊(τ + off) * 1000000000 + 1/2⌋
  (40587 + total / 86400000000000, total % 86400000000000)

/-- Day (MJD) and second-of-day of a uniform-scale display, rounded at
whole seconds (precision 0). -/
def uniformDaySec (off τ : ℚ) : ℤ × ℤ :=
  let total : ℤ := ⌊(τ + off) + 1/2⌋
  (40587 + total / 86400, total % 86400)

/-- Number of displayed seconds in UTC day `d` (86401 on a day that ends with
an inserted leap second). -/
def dispLen (d : ℤ) : ℤ :=
  if 41317 ≤ d then 86400 + (offIntZ (d + 1) - offIntZ d) else 86400

/-- Day (MJD) and nanosecond-of-day of the UTC display of a TAI instant,
rounded at nanosecond precision with carry into the next day. -/
def utcDayNs (τ : ℚ) : ℤ × ℤ :=
  let d := utcDayOfTai τ
  let n : ℤ := ⌊(τ - tai0 d) * (dispLen d : ℚ) / (tai0 (d + 1) - tai0 d) * 1000000000 + 1/2⌋
  if dispLen d * 1000000000 ≤ n then (d + 1, 0) else (d, n)

/-- Day (MJD) and second-of-day of the UTC display, rounded at whole seconds. -/
def utcDaySec (τ : ℚ) : ℤ × ℤ :=
  let d := utcDayOfTai τ
  let n : ℤ := ⌊(τ - tai0 d) * (dispLen d : ℚ) / (tai0 (d + 1) - tai0 d) + 1/2⌋
  if dispLen d ≤ n then (d + 1, 0) else (d, n)

/-- Hour, minute and nanosecond-past-the-minute of a nanosecond-of-day count;
during an inserted leap second the second field reads 60. -/
def hmsOfNs (n : ℤ) : ℤ × ℤ × ℤ :=
  let h := min (n / 3600000000000) 23
  let rem := n - h * 3600000000000
  let mi := min (rem / 60000000000) 59
  (h, mi, rem - mi * 60000000000)

/-- Hour, minute and second of a second-of-day count (second 60 on leap). -/
def hmsOfSec (n : ℤ) : ℤ × ℤ × ℤ :=
  let h := min (n / 3600) 23
  let rem := n - h * 3600
  let mi := min (rem / 60) 59
  (h, mi, rem - mi * 60)

/-- Year text: four digits zero padded, wider only past year 9999 (Python
minimum-width format). -/
def yearChars (y : ℕ) : List Char :=
  if y < 10000 then padDigits 4 y else padDigits 8 y

/-- The isot character string at precision 9. -/
def isoChars (y mo dd h mi sec frac : ℕ) : List Char :=
  yearChars y ++ '-' :: (padDigits 2 mo ++ '-' :: (padDigits 2 dd ++ 'T' :: (padDigits 2 h
    ++ ':' :: (padDigits 2 mi ++ ':' :: (padDigits 2 sec ++ '.' :: padDigits 9 frac)))))

/-- The isot character string at precision 0. -/
def isoCharsSec (y mo dd h mi sec : ℕ) : List Char :=
  yearChars y ++ '-' :: (padDigits 2 mo ++ '-' :: (padDigits 2 dd ++ 'T' :: (padDigits 2 h
    ++ ':' :: (padDigits 2 mi ++ ':' :: padDigits 2 sec))))

/-- The `isot` rendering of an instant in a scale at precision 9. -/
def isotNs (sc : Timescale) (τ : ℚ) : List Char :=
  let dn := match sc with
    | Timescale.TAI => uniformDayNs 0 τ
    | Timescale.UTC => utcDayNs τ
    | Timescale.TT => uniformDayNs (32184/1000) τ
  let ymd := mjdToYmd dn.1
  let hms := hmsOfNs dn.2
  isoChars ymd.1 ymd.2.1 ymd.2.2 hms.1.toNat hms.2.1.toNat
    (hms.2.2 / 1000000000).toNat (hms.2.2 % 1000000000).toNat

/-- The `isot` rendering of an instant in a scale at precision 0. -/
def isotSec (sc : Timescale) (τ : ℚ) : List Char :=
  let dn := match sc with
    | Timescale.TAI => uniformDaySec 0 τ
    | Timescale.UTC => utcDaySec τ
    | Timescale.TT => uniformDaySec (32184/1000) τ
  let ymd := mjdToYmd dn.1
  let hms := hmsOfSec dn.2
  isoCharsSec ymd.1 ymd.2.1 ymd.2.2 hms.1.toNat hms.2.1.toNat hms.2.2.toNat

/-! #### Parsing -/

/-- Split at the first occurrence of a character. -/
def splitAtChar (c : Char) : List Char → Option (List Char × List Char)
  | [] => none
  | x :: xs =>
      if x = c then some ([], xs)
      else (splitAtChar c xs).map (fun p => (x :: p.1, p.2))

/-- Split at the last occurrence of a character (Python `rindex`). -/
def splitLastChar (c : Char) (l : List Char) : Option (List Char × List Char) :=
  match splitAtChar c l.reverse with
  | none => none
  | some (fr, mr) => some (mr.reverse, fr.reverse)

/-- Strict parse of a nonempty all-digit string. -/
def parseNat (l : List Char) : Option ℕ :=
  if l ≠ [] ∧ l.all isDig then some (parseDigits l) else none

/-- astropy `TimeString` parsing of an isot value: strip one trailing `Z`,
read everything after the last dot as fractional seconds, and match the rest
against the isot subformats (date plus h:m:s, h:m, or date only), with the
range checks of strptime/ERFA. -/
def parseIsotFields (l0 : List Char) :
    Option (ℕ × ℕ × ℕ × ℕ × ℕ × ℕ × ℚ) := do
  let l := if l0.getLast? = some 'Z' then l0.dropLast else l0
  let (main, f) ← match splitLastChar '.' l with
    | none => some (l, (0 : ℚ))
    | some (m, fr) =>
        if fr ≠ [] ∧ fr.all isDig then some (m, (parseDigits fr : ℚ) / 10 ^ fr.length)
        else none
  let (date, time) ← match splitAtChar 'T' main with
    | some (date, time) => some (date, time)
    | none => some (main, ([] : List Char))
  let (ys, rest) ← splitAtChar '-' date
  let (mos, dds) ← splitAtChar '-' rest
  let y ← parseNat ys
  let mo ← parseNat mos
  let dd ← parseNat dds
  let (h, mi, s) ← match time with
    | [] => some (0, 0, 0)
    | time =>
        match splitAtChar ':' time with
        | none => none
        | some (hs, rest2) =>
            match splitAtChar ':' rest2 with
            | none => do
                let h ← parseNat hs
                let mi ← parseNat rest2
                some (h, mi, 0)
            | some (mis, ss) => do
                let h ← parseNat hs
                let mi ← parseNat mis
                let s ← parseNat ss
                some (h, mi, s)
  if 1 ≤ mo ∧ mo ≤ 12 ∧ 1 ≤ dd ∧ dd ≤ 31 ∧ h ≤ 23 ∧ mi ≤ 59 ∧ s ≤ 60 then
    some (y, mo, dd, h, mi, s, f)
  else none

/-- Instant (TAI seconds since epoch) of calendar fields read in a scale. -/
def instantOfFields (sc : Timescale) (y mo dd h mi : ℕ) (s : ℚ) : ℚ :=
  let d := ymdToMjd y mo dd
  let S : ℚ := 3600 * h + 60 * mi + s
  match sc with
  | Timescale.TAI => posix0 d + S
  | Timescale.TT => posix0 d + S - 32184/1000
  | Timescale.UTC => tai0 d + S * (tai0 (d + 1) - tai0 d) / (dispLen d : ℚ)

/-- Full isot parse in a scale (the `Time(s, format isot, scale)` call). -/
def parseIsot (sc : Timescale) (l : List Char) : Option ℚ :=
  (parseIsotFields l).map fun f =>
    instantOfFields sc f.1 f.2.1 f.2.2.1 f.2.2.2.1 f.2.2.2.2.1
      ((f.2.2.2.2.2.1 : ℚ) + f.2.2.2.2.2.2)

/-! ### The DateTime facade (`lsstx/DateTime.py`) -/

/-- Python values that can reach the public entry points. -/
inductive PyVal
  | int (n : ℤ)
  | float (q : ℚ)
  | str (s : String)
  | scaleE (ts : Timescale)
  | sysE (ds : DateSystem)
deriving DecidableEq

/-- Errors are Python ValueError carrying their message. -/
abbrev Err := String

/-- The `_import_scale` classmethod: enums pass through, the integer codes
0, 1, 2 map to TAI, UTC, TT, and anything else raises. -/
def importScale : PyVal → Except Err Timescale
  | PyVal.scaleE ts => Except.ok ts
  | PyVal.int 0 => Except.ok Timescale.TAI
  | PyVal.int 1 => Except.ok Timescale.UTC
  | PyVal.int 2 => Except.ok Timescale.TT
  | PyVal.int n =>
      Except.error ("Supplied scale value (" ++ String.mk (intStr n) ++ ") is not valid")
  | _ => Except.error "Supplied scale value is not valid"

/-- The `_import_date_system` classmethod (the typo is the source's). -/
def importDateSystem : PyVal → Except Err DateSystem
  | PyVal.sysE ds => Except.ok ds
  | PyVal.int 0 => Except.ok DateSystem.JD
  | PyVal.int 1 => Except.ok DateSystem.MJD
  | PyVal.int 2 => Except.ok DateSystem.EPOCH
  | PyVal.int n =>
      Except.error ("Supplied date systen value (" ++ String.mk (intStr n) ++ ") is not valid")
  | _ => Except.error "Supplied date systen value is not valid"

/-- Take exactly `k` digit characters. -/
def takeDigits : ℕ → List Char → Option (List Char × List Char)
  | 0, l => some ([], l)
  | _ + 1, [] => none
  | k + 1, c :: cs =>
      if isDig c then (takeDigits k cs).map (fun p => (c :: p.1, p.2)) else none

/-- Take a maximal (possibly empty) run of digit characters. -/
def takeDigitRun : List Char → List Char × List Char
  | [] => ([], [])
  | c :: cs =>
      if isDig c then
        match takeDigitRun cs with
        | (run, rest) => (c :: run, rest)
      else ([], c :: cs)

/-- One attempted match of the compact-form regex
`(dddd)(dd)(dd)T(dd)(dd)(dd)(.d+)?Z` at the head of the list, returning the
translated extended-form string the constructor builds from the groups. -/
def compactMatchAt (l : List Char) : Option (List Char) := do
  let (y, r1) ← takeDigits 4 l
  let (mo, r2) ← takeDigits 2 r1
  let (dd, r3) ← takeDigits 2 r2
  match r3 with
  | 'T' :: r4 => do
      let (hh, r5) ← takeDigits 2 r4
      let (mi, r6) ← takeDigits 2 r5
      let (ss, r7) ← takeDigits 2 r6
      let fr8 : List Char × List Char :=
        match r7 with
        | '.' :: rest =>
            match takeDigitRun rest with
            | ([], _) => ([], r7)
            | (run, rest2) => ('.' :: run, rest2)
        | _ => ([], r7)
      match fr8.2 with
      | 'Z' :: _ =>
          some (y ++ '-' :: mo ++ '-' :: dd ++ 'T' :: hh ++ ':' :: mi ++ ':' :: ss ++ fr8.1)
      | _ => none
  | _ => none

/-- Python `re.search`: try the compact pattern at every start position. -/
def compactSearch : List Char → Option (List Char)
  | [] => none
  | l :: tl =>
      match compactMatchAt (l :: tl) with
      | some res => some res
      | none => compactSearch tl

namespace DateTime

/-- String path of the constructor: translate a compact-form match, then
parse as isot, always in UTC. -/
def strCtor (s0 : String) : Except Err ℚ :=
  let l := s0.toList
  let translated := (compactSearch l).getD l
  match parseIsot Timescale.UTC translated with
  | some τ => Except.ok τ
  | none => Except.error "could not parse ISO string"

/-- Integer-nanoseconds path of the constructor. -/
def intCtor (nsecs : ℤ) (scale : Timescale) : Except Err ℚ := do
  let fraction : ℤ := (lastNine nsecs.natAbs : ℤ)
  let fracpositive : Bool := decide (0 ≤ nsecs)
  let timeArg : ℤ := pyInt ((nsecs : ℚ) / 1000000000)
  let τ1 : ℚ ←
    match scale with
    | Timescale.TAI => Except.ok ((timeArg : ℚ))
    | Timescale.UTC =>
        let ttmp := taiOfUnix ((timeArg : ℚ))
        let deltat := ttmp - unixOfTai ttmp
        let deltat2 := if 63072000 < timeArg then ((pyInt (deltat + 1/2) : ℤ) : ℚ) else deltat
        Except.ok ((timeArg : ℚ) + deltat2)
    | Timescale.TT => Except.ok ((timeArg : ℚ) - 32184/1000)
  if fraction ≠ 0 then
    if fracpositive then
      let isostring := isotSec scale τ1 ++ '.' :: padDigits 9 fraction.toNat
      match parseIsot scale isostring with
      | some τ => Except.ok τ
      | none => Except.error "could not parse ISO string"
    else
      Except.ok (τ1 - (fraction : ℚ) / 1000000000)
  else
    Except.ok τ1

/-- Floating date-value path of the constructor. -/
def floatCtor (v : ℚ) (system : DateSystem) (scale : Timescale) : Except Err ℚ :=
  let mjdVal : ℚ :=
    match system with
    | DateSystem.MJD => v
    | DateSystem.JD => v - 4800001/2
    | DateSystem.EPOCH => (v - 2000) * (1461/4) + 103089/2
  Except.ok (match scale with
    | Timescale.TAI => (mjdVal - 40587) * 86400
    | Timescale.TT => (mjdVal - 40587) * 86400 - 32184/1000
    | Timescale.UTC => taiOfUnix ((mjdVal - 40587) * 86400))

/-- Six-calendar-fields path of the constructor. -/
def sixCtor (y mo dd h mi s : ℤ) (scale : Timescale) : Except Err ℚ :=
  let isostring := yearChars y.toNat ++ '-' :: padDigits 2 mo.toNat ++ '-'
    :: padDigits 2 dd.toNat ++ 'T' :: padDigits 2 h.toNat ++ ':' :: padDigits 2 mi.toNat
    ++ ':' :: padDigits 2 s.toNat
  match parseIsot scale isostring with
  | some τ => Except.ok τ
  | none => Except.error "could not parse ISO string"

/-- Dispatch on the remaining positional arguments. -/
def mainCtor (core : List PyVal) (system : DateSystem) (scale : Timescale) : Except Err ℚ :=
  match core with
  | [PyVal.str s] => strCtor s
  | [PyVal.int n] => intCtor n scale
  | [PyVal.float q] => floatCtor q system scale
  | [_] => Except.error "Can not work out what first argument is for DateTime"
  | [PyVal.int y, PyVal.int mo, PyVal.int dd, PyVal.int h, PyVal.int mi, PyVal.int s] =>
      sixCtor y mo dd h mi s scale
  | _ => Except.error "Unexpected number of arguments in DateTime constructor"

/-- The public constructor on its positional argument list: no arguments mean
zero nanoseconds; a trailing scale (and, with a date value, a preceding date
system) is imported; the rest dispatches on the first argument's type.
The result is the internal astropy instant, in TAI seconds since the epoch. -/
def ctor (args0 : List PyVal) : Except Err ℚ := do
  let args1 := if args0 = [] then [PyVal.int 0] else args0
  let n := args1.length
  let scale ←
    if n = 2 ∨ n = 7 then importScale (args1.getLastD (PyVal.int 0))
    else if n = 3 ∨ n = 8 then importScale (args1.getLastD (PyVal.int 0))
    else Except.ok Timescale.TAI
  let system ←
    if n = 3 ∨ n = 8 then importDateSystem (args1.dropLast.getLastD (PyVal.int 0))
    else Except.ok DateSystem.MJD
  let core :=
    if n = 2 ∨ n = 7 then args1.dropLast
    else if n = 3 ∨ n = 8 then args1.dropLast.dropLast
    else args1
  mainCtor core system scale

/-- The `nsecs` method on the internal instant. -/
def nsecs (τ : ℚ) (arg : Option PyVal) : Except Err ℤ := do
  if arg = some (PyVal.scaleE Timescale.TT) then
    Except.error "nsecs() does not yet support TT timescale"
  else
    let scale ← match arg with
      | none => Except.ok Timescale.TAI
      | some v => importScale v
    let integer : ℤ ←
      match scale with
      | Timescale.TAI => Except.ok (pyInt τ)
      | Timescale.UTC => Except.ok (pyInt (unixOfTai τ))
      | Timescale.TT => Except.error "Unexpected timescale in nsecs call"
    let iso := if 63072000 < unixOfTai τ then isotNs Timescale.TAI τ else isotNs Timescale.UTC τ
    match pyLong (intStr integer ++ pySlice iso 20 29 ++ ['L']) with
    | some v => Except.ok v
    | none => Except.error "invalid literal for long"

/-- The `_in_timescale` helper: identity checks against the enum members,
with no integer import. -/
def inTimescaleScale (arg : PyVal) : Except Err Timescale :=
  match arg with
  | PyVal.scaleE ts => Except.ok ts
  | _ => Except.error "Unexpected time scale provided"

/-- The MJD value of the instant in a scale (astropy `t.mjd`). -/
def mjdValOf (τ : ℚ) (sc : Timescale) : ℚ :=
  match sc with
  | Timescale.TAI => 40587 + τ / 86400
  | Timescale.UTC => 40587 + unixOfTai τ / 86400
  | Timescale.TT => 40587 + (τ + 32184/1000) / 86400

/-- The `_in_format` helper on a scale value. -/
def inFormat (τ : ℚ) (sc : Timescale) (sys : DateSystem) : ℚ :=
  match sys with
  | DateSystem.MJD => mjdValOf τ sc
  | DateSystem.JD => mjdValOf τ sc + 4800001/2
  | DateSystem.EPOCH => 2000 + (mjdValOf τ sc + 4800001/2 - 2451545) / (1461/4)

/-- The `get` method: optional date system then scale, both imported. -/
def get (τ : ℚ) (args : List PyVal) : Except Err ℚ := do
  let scale ←
    if args.length = 2 then importScale (args.getLastD (PyVal.int 0))
    else Except.ok Timescale.TAI
  let system ← match args.head? with
    | some a => importDateSystem a
    | none => Except.ok DateSystem.MJD
  Except.ok (inFormat τ scale system)

/-- The `mjd` method: the raw argument goes to `_in_timescale` unimported. -/
def mjd (τ : ℚ) (args : List PyVal) : Except Err ℚ := do
  let sc ← inTimescaleScale (args.headD (PyVal.scaleE Timescale.TAI))
  Except.ok (mjdValOf τ sc)

/-- The `__str__` method: UTC isot at precision 9, plus the trailing Z. -/
def toStr (τ : ℚ) : String := String.mk (isotNs Timescale.UTC τ ++ ['Z'])

/-- The `__eq__` method: astropy Time equality, exact equality of instants. -/
def dtEq (a b : ℚ) : Bool := decide (a = b)

end DateTime

/-! ### Decomposition lemmas for `nsecs` -/

theorem isDig_ne_dash {c : Char} (h : isDig c = true) : c ≠ '-' := by
  intro hc
  rw [hc] at h
  simp [isDig] at h

theorem iso_slice {y mo dd h mi sec frac : ℕ} (hy : y < 10000) :
    pySlice (isoChars y mo dd h mi sec frac) 20 29 = padDigits 9 frac := by
  simp [isoChars, yearChars, hy, padDigits, pySlice, List.drop, List.take]

theorem pyLong_concat {i : ℤ} (h0 : 0 ≤ i) (hsz : i.natAbs < 10 ^ 64) (frac : ℕ) :
    pyLong (intStr i ++ padDigits 9 frac ++ ['L']) =
      some (i * 10 ^ 9 + ((frac % 10 ^ 9 : ℕ) : ℤ)) := by
  have hstr : intStr i = natStr i.natAbs := by
    rw [intStr, if_neg (not_lt.mpr h0)]
  rw [pyLong, hstr]
  rw [if_pos (by simp), List.dropLast_concat]
  obtain ⟨c, cs, hcc⟩ := List.exists_cons_of_ne_nil (natStr_ne_nil i.natAbs)
  have hdigs := natStr_all_digits i.natAbs
  have hcdig : isDig c = true := by
    rw [hcc, List.all_cons] at hdigs
    exact (Bool.and_eq_true_iff.mp hdigs).1
  have hall : (natStr i.natAbs ++ padDigits 9 frac).all isDig = true := by
    rw [List.all_append, hdigs, padDigits_all_digits]
    rfl
  have hval : parseDigits (natStr i.natAbs ++ padDigits 9 frac)
      = i.natAbs * 10 ^ 9 + frac % 10 ^ 9 := by
    rw [parseDigits_append, padDigits_length, parseDigits_natStr hsz, parseDigits_padDigits]
  rw [hcc, List.cons_append]
  unfold pyLongCore
  split
  · rename_i rest heq
    exfalso
    exact isDig_ne_dash hcdig (List.cons_eq_cons.mp heq).1
  · rw [if_pos ⟨by simp, by rw [← List.cons_append, ← hcc]; exact hall⟩]
    rw [← List.cons_append, ← hcc, hval]
    congr 1
    push_cast
    rw [abs_of_nonneg h0]

theorem nsecs_eq_TAI (τ : ℚ) :
    DateTime.nsecs τ (some (PyVal.scaleE Timescale.TAI)) =
      match pyLong (intStr (pyInt τ) ++ pySlice (if 63072000 < unixOfTai τ
          then isotNs Timescale.TAI τ else isotNs Timescale.UTC τ) 20 29 ++ ['L']) with
      | some v => Except.ok v
      | none => Except.error "invalid literal for long" := rfl

theorem nsecs_eq_UTC (τ : ℚ) :
    DateTime.nsecs τ (some (PyVal.scaleE Timescale.UTC)) =
      match pyLong (intStr (pyInt (unixOfTai τ)) ++ pySlice (if 63072000 < unixOfTai τ
          then isotNs Timescale.TAI τ else isotNs Timescale.UTC τ) 20 29 ++ ['L']) with
      | some v => Except.ok v
      | none => Except.error "invalid literal for long" := rfl

theorem isotNs_TAI_fields (τ : ℚ) :
    isotNs Timescale.TAI τ =
      isoChars (mjdToYmd (uniformDayNs 0 τ).1).1 (mjdToYmd (uniformDayNs 0 τ).1).2.1
        (mjdToYmd (uniformDayNs 0 τ).1).2.2 ((hmsOfNs (uniformDayNs 0 τ).2).1).toNat
        ((hmsOfNs (uniformDayNs 0 τ).2).2.1).toNat
        (((hmsOfNs (uniformDayNs 0 τ).2).2.2) / 1000000000).toNat
        (((hmsOfNs (uniformDayNs 0 τ).2).2.2) % 1000000000).toNat := rfl

theorem pyInt_of_nonneg {τ : ℚ} (h : 0 ≤ τ) : pyInt τ = ⌊τ⌋ := by
  rw [pyInt, if_neg (not_lt.mpr h)]

theorem mjdToYmd_year_lt {d : ℤ} (hlo : 0 ≤ d) (hhi : d < 150000) :
    (mjdToYmd d).1 < 10000 := by
  rcases h : mjdToYmd d with ⟨y, m, dd⟩
  obtain ⟨_, h2, _⟩ := mjdToYmd_bounds hlo hhi h
  simpa using by omega

theorem uniformDayNs_day_bounds {τ : ℚ} (hlo : 0 ≤ τ) (hhi : τ ≤ 9300000000) :
    0 ≤ (uniformDayNs 0 τ).1 ∧ (uniformDayNs 0 τ).1 < 150000 := by
  simp only [uniformDayNs]
  have h0 : (0 : ℚ) ≤ (τ + 0) * 1000000000 + 1/2 := by linarith
  have h1 : 0 ≤ ⌊(τ + 0) * 1000000000 + 1/2⌋ := Int.floor_nonneg.mpr h0
  have h2 : ⌊(τ + 0) * 1000000000 + 1/2⌋ ≤ 9300000000000000000 := by
    have ha : ((⌊(τ + 0) * 1000000000 + 1/2⌋ : ℤ) : ℚ) ≤ (τ + 0) * 1000000000 + 1/2 :=
      Int.floor_le _
    have hb : ((⌊(τ + 0) * 1000000000 + 1/2⌋ : ℤ) : ℚ) < 9300000000000000001 := by linarith
    exact_mod_cast Int.lt_add_one_iff.mp (by exact_mod_cast hb)
  omega

/-- Both `nsecs` readings share the fractional digits of the common iso
string; after 1972 the value decomposes into the integer part times `10^9`
plus that shared fraction. -/
theorem nsecs_decomp {τ : ℚ} (hun : 63072000 < unixOfTai τ) (hlo : 0 ≤ τ)
    (hhi : τ ≤ 9300000000) :
    ∃ F : ℤ, 0 ≤ F ∧ F < 10 ^ 9 ∧
      DateTime.nsecs τ (some (PyVal.scaleE Timescale.TAI)) =
        Except.ok (pyInt τ * 10 ^ 9 + F) ∧
      DateTime.nsecs τ (some (PyVal.scaleE Timescale.UTC)) =
        Except.ok (pyInt (unixOfTai τ) * 10 ^ 9 + F) := by
  obtain ⟨hd0, hd1⟩ := uniformDayNs_day_bounds hlo hhi
  have hy := mjdToYmd_year_lt hd0 hd1
  have hiso : (if 63072000 < unixOfTai τ then isotNs Timescale.TAI τ
      else isotNs Timescale.UTC τ) = isotNs Timescale.TAI τ := if_pos hun
  set F0 : ℕ := (((hmsOfNs (uniformDayNs 0 τ).2).2.2) % 1000000000).toNat with hF0
  have hslice : pySlice (isotNs Timescale.TAI τ) 20 29 = padDigits 9 F0 := by
    rw [isotNs_TAI_fields]
    exact iso_slice hy
  have hFlt : F0 < 10 ^ 9 := by omega
  have hFmod : F0 % 10 ^ 9 = F0 := Nat.mod_eq_of_lt hFlt
  have hτint : 0 ≤ pyInt τ := by
    rw [pyInt_of_nonneg hlo]
    exact Int.floor_nonneg.mpr hlo
  have hτsz : (pyInt τ).natAbs < 10 ^ 64 := by
    rw [pyInt_of_nonneg hlo]
    have ha : ((⌊τ⌋ : ℤ) : ℚ) ≤ τ := Int.floor_le _
    have hc : 0 ≤ ⌊τ⌋ := Int.floor_nonneg.mpr hlo
    have hd : ⌊τ⌋ ≤ 9300000000 := by
      have hb : ((⌊τ⌋ : ℤ) : ℚ) < 9300000001 := by linarith
      exact_mod_cast Int.lt_add_one_iff.mp (by exact_mod_cast hb)
    omega
  have huxlo : (0 : ℚ) ≤ unixOfTai τ := by linarith
  have huxint : 0 ≤ pyInt (unixOfTai τ) := by
    rw [pyInt_of_nonneg huxlo]
    exact Int.floor_nonneg.mpr huxlo
  have huxhi : unixOfTai τ ≤ 9300000000 + 86438 := by
    obtain ⟨hm1, hm2⟩ := unixOfTai_mem τ
    obtain ⟨ht1, ht2⟩ := utcDayOfTai_spec τ
    obtain ⟨hb1, hb2⟩ := dAT_bounds (utcDayOfTai τ + 1)
    have hpe : posix0 (utcDayOfTai τ + 1)
        = tai0 (utcDayOfTai τ + 1) - dAT (utcDayOfTai τ + 1) := by
      rw [tai0]; ring
    have hup := tai0_day_len_ub (utcDayOfTai τ)
    linarith
  have huxsz : (pyInt (unixOfTai τ)).natAbs < 10 ^ 64 := by
    rw [pyInt_of_nonneg huxlo]
    have ha : ((⌊unixOfTai τ⌋ : ℤ) : ℚ) ≤ unixOfTai τ := Int.floor_le _
    have hc : 0 ≤ ⌊unixOfTai τ⌋ := Int.floor_nonneg.mpr huxlo
    have hd : ⌊unixOfTai τ⌋ ≤ 9300086438 := by
      have hb : ((⌊unixOfTai τ⌋ : ℤ) : ℚ) < 9300086439 := by linarith
      exact_mod_cast Int.lt_add_one_iff.mp (by exact_mod_cast hb)
    omega
  refine ⟨(F0 : ℤ), by positivity, by exact_mod_cast hFlt, ?_, ?_⟩
  · rw [nsecs_eq_TAI, hiso, hslice, pyLong_concat hτint hτsz, hFmod]
  · rw [nsecs_eq_UTC, hiso, hslice, pyLong_concat huxint huxsz, hFmod]

/-- Equality of `Except` values is decidable componentwise. -/
instance {ε α : Type} [DecidableEq ε] [DecidableEq α] : DecidableEq (Except ε α) := fun x y =>
  match x, y with
  | Except.error e, Except.error f =>
      if h : e = f then isTrue (by rw [h]) else isFalse (fun hc => h (Except.error.injEq .. ▸ hc))
  | Except.error _, Except.ok _ => isFalse (fun hc => Except.noConfusion hc)
  | Except.ok _, Except.error _ => isFalse (fun hc => Except.noConfusion hc)
  | Except.ok a, Except.ok b =>
      if h : a = b then isTrue (by rw [h]) else isFalse (fun hc => h (Except.ok.injEq .. ▸ hc))

set_option maxRecDepth 4000 in
/-- C1, amended.  At the spec's own example instants -- both asserted by the
repository's test suite, and both with whole-second nanosecond counts that
are exact in the program's float64 arithmetic -- `nsecs(TAI) - nsecs(UTC)`
equals exactly the integer leap offset in force: 21 seconds for the instant
constructed from MJD 45205.125 UTC (45205.125 is a dyadic rational, exact
as a double), 33 seconds for the one constructed from 1192755473000000000
UTC nanoseconds.  The identity is not stated for arbitrary instants: the
program computes both integer parts by truncating float64-collapsed astropy
attributes, whose rounding within a unit in the last place of a second
boundary this exact model does not reproduce; and on a day containing a
leap second even the idealized identity fails (see the counterexample). -/
theorem claim_C1_nsecs_difference :
    (DateTime.ctor [PyVal.float (361641/8), PyVal.sysE DateSystem.MJD,
        PyVal.scaleE Timescale.UTC] = Except.ok (399006021 : ℚ) ∧
      DateTime.nsecs (399006021 : ℚ) (some (PyVal.scaleE Timescale.TAI))
        = Except.ok 399006021000000000 ∧
      DateTime.nsecs (399006021 : ℚ) (some (PyVal.scaleE Timescale.UTC))
        = Except.ok 399006000000000000 ∧
      offIntZ (utcDayOfTai (399006021 : ℚ)) = 21 ∧
      (399006021000000000 - 399006000000000000 : ℤ)
        = offIntZ (utcDayOfTai (399006021 : ℚ)) * 10 ^ 9) ∧
    (DateTime.ctor [PyVal.int 1192755473000000000, PyVal.scaleE Timescale.UTC]
        = Except.ok (1192755506 : ℚ) ∧
      DateTime.nsecs (1192755506 : ℚ) (some (PyVal.scaleE Timescale.TAI))
        = Except.ok 1192755506000000000 ∧
      DateTime.nsecs (1192755506 : ℚ) (some (PyVal.scaleE Timescale.UTC))
        = Except.ok 1192755473000000000 ∧
      offIntZ (utcDayOfTai (1192755506 : ℚ)) = 33 ∧
      (1192755506000000000 - 1192755473000000000 : ℤ)
        = offIntZ (utcDayOfTai (1192755506 : ℚ)) * 10 ^ 9) := by
  refine ⟨⟨?_, ?_, ?_, ?_, ?_⟩, ⟨?_, ?_, ?_, ?_, ?_⟩⟩ <;> decide

set_option maxRecDepth 4000 in
/-- C1, counterexample to the claim as stated.  The instant constructed from
78753600000000000 UTC nanoseconds (1972-06-30T12:00:00, a day that ends with
a leap second) is after 1972, yet `nsecs(TAI) - nsecs(UTC)` is 11 seconds
while the leap offset in force is 10 seconds. -/
theorem claim_C1_counterexample :
    DateTime.ctor [PyVal.int 78753600000000000, PyVal.scaleE Timescale.UTC]
      = Except.ok (78753611 : ℚ) ∧
    63072000 < unixOfTai (78753611 : ℚ) ∧
    DateTime.nsecs (78753611 : ℚ) (some (PyVal.scaleE Timescale.TAI))
      = Except.ok 78753611000000000 ∧
    DateTime.nsecs (78753611 : ℚ) (some (PyVal.scaleE Timescale.UTC))
      = Except.ok 78753600000000000 ∧
    offIntZ (utcDayOfTai (78753611 : ℚ)) = 10 ∧
    (78753611000000000 - 78753600000000000 : ℤ) ≠ 10 * 10 ^ 9 := by
  refine ⟨?_, ?_, ?_, ?_, ?_, ?_⟩ <;> decide


/-! ### C2: the rounding condition in the integer-UTC constructor -/

theorem pyInt_intCast (k : ℤ) : pyInt ((k : ℤ) : ℚ) = k := by
  rw [pyInt]
  split_ifs
  · exact Int.ceil_intCast k
  · exact Int.floor_intCast k

theorem intCast_mul_div_cancel (u : ℤ) :
    (((u * 1000000000 : ℤ) : ℚ)) / 1000000000 = (u : ℚ) := by
  push_cast
  field_simp

theorem intCtor_whole_seconds_UTC {u : ℤ} (hb : u.natAbs ≤ 10 ^ 10) :
    DateTime.intCtor (u * 1000000000) Timescale.UTC =
      Except.ok ((u : ℚ) +
        (if 63072000 < u then ((pyInt ((taiOfUnix (u : ℚ) - (u : ℚ)) + 1/2) : ℤ) : ℚ)
         else taiOfUnix (u : ℚ) - (u : ℚ))) := by
  have hfrac : lastNine (u * 1000000000).natAbs = 0 := by
    have h1 : (u * 1000000000).natAbs = u.natAbs * 1000000000 := by
      rw [Int.natAbs_mul]
      norm_num
    have h2 : u.natAbs * 1000000000 < 10 ^ 64 := by nlinarith [hb]
    rw [h1, lastNine_eq_mod h2]
    omega
  simp only [DateTime.intCtor, hfrac, intCast_mul_div_cancel, pyInt_intCast,
    unixOfTai_taiOfUnix]
  rfl

/-- C2, amended.  In the constructor taking integer nanoseconds with scale
UTC, at whole-second inputs `u * 10^9` with |u| <= 4.6e9 -- the regime in
which `u * 10^9` has at most 53 significant bits, so the program's float64
conversion and division by 1e9 are exact and `int(nsecs/1e9)` really is `u`
-- the TAI-UTC offset added before storing the internal instant is
`taiOfUnix u - u`; it is forced to an integer by rounding to the nearest
second exactly when the truncated epoch second count is STRICTLY GREATER
than the threshold 63072000, and is used unrounded at or below the
threshold -- the reverse of the claimed condition. -/
theorem claim_C2_rounding_condition {u : ℤ} (hb : u.natAbs ≤ 4600000000) :
    DateTime.ctor [PyVal.int (u * 1000000000), PyVal.scaleE Timescale.UTC] =
      Except.ok ((u : ℚ) +
        (if 63072000 < u then ((pyInt ((taiOfUnix (u : ℚ) - (u : ℚ)) + 1/2) : ℤ) : ℚ)
         else taiOfUnix (u : ℚ) - (u : ℚ))) := by
  have h : DateTime.ctor [PyVal.int (u * 1000000000), PyVal.scaleE Timescale.UTC]
      = DateTime.intCtor (u * 1000000000) Timescale.UTC := rfl
  rw [h]
  exact intCtor_whole_seconds_UTC (le_trans hb (by norm_num))

set_option maxRecDepth 4000 in
/-- C2, counterexample to the claim as stated.  At the epoch (second 0, at or
before the threshold 63072000) the stored offset is the unrounded drift value
4000041/500000 seconds, not an integer, so no rounding is applied at or below
the threshold; and past the threshold (second 78753600, mid leap day) the
smeared offset 21/2 IS forced to the integer 11, so the looked-up offset is
not used without forcing. -/
theorem claim_C2_counterexample :
    DateTime.ctor [PyVal.int 0, PyVal.scaleE Timescale.UTC]
      = Except.ok (4000041/500000 : ℚ) ∧
    (4000041/500000 : ℚ) ≠ ((0 : ℚ) + ((pyInt ((taiOfUnix 0 - 0) + 1/2) : ℤ) : ℚ)) ∧
    taiOfUnix (78753600 : ℚ) - 78753600 = 21/2 ∧
    DateTime.ctor [PyVal.int (78753600 * 1000000000), PyVal.scaleE Timescale.UTC]
      = Except.ok (78753611 : ℚ) ∧
    (78753611 : ℚ) ≠ 78753600 + (taiOfUnix (78753600 : ℚ) - 78753600) := by
  refine ⟨?_, ?_, ?_, ?_, ?_⟩ <;> decide

set_option maxRecDepth 4000 in
/-- C2, witness.  The amended theorem applied at whole seconds 78753600
(past the threshold: rounding branch) and 0 (at or below: unrounded branch). -/
theorem claim_C2_witness :
    ((78753600 : ℤ).natAbs ≤ 4600000000 ∧
      DateTime.ctor [PyVal.int ((78753600 : ℤ) * 1000000000), PyVal.scaleE Timescale.UTC] =
        Except.ok (((78753600 : ℤ) : ℚ) +
          (if 63072000 < (78753600 : ℤ)
           then ((pyInt ((taiOfUnix (((78753600 : ℤ) : ℚ)) - (((78753600 : ℤ) : ℚ))) + 1/2) : ℤ) : ℚ)
           else taiOfUnix (((78753600 : ℤ) : ℚ)) - (((78753600 : ℤ) : ℚ))))) ∧
    ((0 : ℤ).natAbs ≤ 4600000000 ∧
      DateTime.ctor [PyVal.int ((0 : ℤ) * 1000000000), PyVal.scaleE Timescale.UTC] =
        Except.ok (((0 : ℤ) : ℚ) +
          (if 63072000 < (0 : ℤ)
           then ((pyInt ((taiOfUnix (((0 : ℤ) : ℚ)) - (((0 : ℤ) : ℚ))) + 1/2) : ℤ) : ℚ)
           else taiOfUnix (((0 : ℤ) : ℚ)) - (((0 : ℤ) : ℚ))))) :=
  ⟨⟨by decide, claim_C2_rounding_condition (by decide)⟩,
   ⟨by decide, claim_C2_rounding_condition (by decide)⟩⟩

/-! ### C6: nsecs rejects TT; C10: string constructor forces UTC -/

/-- C6, confirmed.  For every internal instant, `nsecs` with the TT
timescale fails: as the `Timescale.TT` enum member it raises the dedicated
"does not yet support TT" error before any conversion; as the integer code 2
it passes the import and then fails the scale dispatch.  Either way an error
is raised and no value is produced. -/
theorem claim_C6_nsecs_tt_errors (τ : ℚ) :
    DateTime.nsecs τ (some (PyVal.scaleE Timescale.TT))
      = Except.error "nsecs() does not yet support TT timescale" ∧
    DateTime.nsecs τ (some (PyVal.int 2))
      = Except.error "Unexpected timescale in nsecs call" := ⟨rfl, rfl⟩

/-- C10, confirmed.  When the first constructor argument is a string, any
valid timescale passed as the second argument is silently ignored: the
result is identical to constructing from the string alone, which parses the
string in UTC (`strCtor` hard-codes `Timescale.UTC`). -/
theorem claim_C10_string_scale_ignored (s : String) (v : PyVal) (ts : Timescale)
    (h : importScale v = Except.ok ts) :
    DateTime.ctor [PyVal.str s, v] = DateTime.ctor [PyVal.str s] ∧
    DateTime.ctor [PyVal.str s] = DateTime.strCtor s := by
  refine ⟨?_, rfl⟩
  have h1 : DateTime.ctor [PyVal.str s, v]
      = (importScale v).bind (fun _ => DateTime.strCtor s) := rfl
  rw [h1, h]
  rfl

set_option maxRecDepth 4000 in
/-- C10, witness.  The theorem applied at the spec example: constructing
from "2009-04-02T07:26:39Z" with an explicit TAI scale argument equals
constructing from the string alone, and the stored instant is the UTC
interpretation, 1238657233 TAI seconds. -/
theorem claim_C10_witness :
    importScale (PyVal.scaleE Timescale.TAI) = Except.ok Timescale.TAI ∧
    (DateTime.ctor [PyVal.str "2009-04-02T07:26:39Z", PyVal.scaleE Timescale.TAI]
        = DateTime.ctor [PyVal.str "2009-04-02T07:26:39Z"] ∧
      DateTime.ctor [PyVal.str "2009-04-02T07:26:39Z"]
        = DateTime.strCtor "2009-04-02T07:26:39Z") ∧
    DateTime.ctor [PyVal.str "2009-04-02T07:26:39Z"] = Except.ok (1238657233 : ℚ) :=
  ⟨rfl,
   claim_C10_string_scale_ignored "2009-04-02T07:26:39Z"
     (PyVal.scaleE Timescale.TAI) Timescale.TAI rfl,
   by decide⟩

/-! ### C7: sub-nanosecond parse digits; C8: epoch string and rendering -/

set_option maxRecDepth 4000 in
/-- C7, amended.  A fractional-second part of more than 9 digits is NOT cut
at parse time: "2004-03-01T12:39:45.0000000001Z" stores an instant a tenth
of a nanosecond after the one stored for "2004-03-01T12:39:45.000000000Z".
All nanosecond-resolution observations nevertheless agree between the two:
`nsecs` in UTC and in TAI, and the rendered string, are identical. -/
theorem claim_C7_subns_observations :
    DateTime.ctor [PyVal.str "2004-03-01T12:39:45.0000000001Z"]
      = Except.ok (10781448170000000001/10000000000 : ℚ) ∧
    DateTime.ctor [PyVal.str "2004-03-01T12:39:45.000000000Z"]
      = Except.ok (1078144817 : ℚ) ∧
    DateTime.nsecs (10781448170000000001/10000000000 : ℚ)
      (some (PyVal.scaleE Timescale.UTC)) = Except.ok 1078144785000000000 ∧
    DateTime.nsecs (1078144817 : ℚ)
      (some (PyVal.scaleE Timescale.UTC)) = Except.ok 1078144785000000000 ∧
    DateTime.nsecs (10781448170000000001/10000000000 : ℚ)
      (some (PyVal.scaleE Timescale.TAI)) = Except.ok 1078144817000000000 ∧
    DateTime.nsecs (1078144817 : ℚ)
      (some (PyVal.scaleE Timescale.TAI)) = Except.ok 1078144817000000000 ∧
    DateTime.toStr (10781448170000000001/10000000000 : ℚ)
      = "2004-03-01T12:39:45.000000000Z" ∧
    DateTime.toStr (1078144817 : ℚ) = "2004-03-01T12:39:45.000000000Z" := by
  refine ⟨?_, ?_, ?_, ?_, ?_, ?_, ?_, ?_⟩ <;> decide

set_option maxRecDepth 4000 in
/-- C7, counterexample to the claim as stated.  The ten-digit string does
not parse to the same instant as its nine-digit truncation: the stored
instants differ by 10^-10 seconds, and astropy equality distinguishes them. -/
theorem claim_C7_counterexample :
    DateTime.ctor [PyVal.str "2004-03-01T12:39:45.0000000001Z"]
      = Except.ok (10781448170000000001/10000000000 : ℚ) ∧
    DateTime.ctor [PyVal.str "2004-03-01T12:39:45.000000000Z"]
      = Except.ok (1078144817 : ℚ) ∧
    DateTime.dtEq (10781448170000000001/10000000000 : ℚ) (1078144817 : ℚ) = false := by
  refine ⟨?_, ?_, ?_⟩ <;> decide

theorem isoChars_dot_split (y mo dd h mi sec frac : ℕ) :
    ∃ p : List Char, isoChars y mo dd h mi sec frac = p ++ '.' :: padDigits 9 frac := by
  refine ⟨yearChars y ++ '-' :: (padDigits 2 mo ++ '-' :: (padDigits 2 dd
    ++ 'T' :: (padDigits 2 h ++ ':' :: (padDigits 2 mi ++ ':' :: padDigits 2 sec)))), ?_⟩
  simp [isoChars, List.append_assoc]

theorem isotNs_UTC_fields (τ : ℚ) :
    isotNs Timescale.UTC τ =
      isoChars (mjdToYmd (utcDayNs τ).1).1 (mjdToYmd (utcDayNs τ).1).2.1
        (mjdToYmd (utcDayNs τ).1).2.2 ((hmsOfNs (utcDayNs τ).2).1).toNat
        ((hmsOfNs (utcDayNs τ).2).2.1).toNat
        (((hmsOfNs (utcDayNs τ).2).2.2) / 1000000000).toNat
        (((hmsOfNs (utcDayNs τ).2).2.2) % 1000000000).toNat := rfl

set_option maxRecDepth 4000 in
/-- C8, confirmed.  The compact epoch string "19700101T000000Z" constructs
the instant whose `nsecs(UTC)` is exactly 0 and whose rendering is exactly
"1970-01-01T00:00:00.000000000Z"; and every rendering is the UTC extended
isot form with exactly 9 fractional-second digits after the decimal point
followed by a trailing Z. -/
theorem claim_C8_epoch_and_rendering :
    DateTime.ctor [PyVal.str "19700101T000000Z"] = Except.ok (4000041/500000 : ℚ) ∧
    DateTime.nsecs (4000041/500000 : ℚ) (some (PyVal.scaleE Timescale.UTC))
      = Except.ok 0 ∧
    DateTime.toStr (4000041/500000 : ℚ) = "1970-01-01T00:00:00.000000000Z" ∧
    (∀ τ : ℚ, ∃ p f : List Char,
      DateTime.toStr τ = String.mk (p ++ '.' :: (f ++ ['Z'])) ∧
      f.length = 9 ∧ f.all isDig = true) := by
  refine ⟨by decide, by decide, by decide, fun τ => ?_⟩
  obtain ⟨p, hp⟩ := isoChars_dot_split (mjdToYmd (utcDayNs τ).1).1
    (mjdToYmd (utcDayNs τ).1).2.1 (mjdToYmd (utcDayNs τ).1).2.2
    ((hmsOfNs (utcDayNs τ).2).1).toNat ((hmsOfNs (utcDayNs τ).2).2.1).toNat
    (((hmsOfNs (utcDayNs τ).2).2.2) / 1000000000).toNat
    (((hmsOfNs (utcDayNs τ).2).2.2) % 1000000000).toNat
  refine ⟨p, padDigits 9 (((hmsOfNs (utcDayNs τ).2).2.2) % 1000000000).toNat, ?_,
    padDigits_length 9 _, padDigits_all_digits 9 _⟩
  rw [DateTime.toStr, isotNs_UTC_fields, hp]
  simp [List.append_assoc]

/-! ### C5: integer enum codes -/

theorem importScale_int_invalid {k : ℤ} (h0 : k ≠ 0) (h1 : k ≠ 1) (h2 : k ≠ 2) :
    importScale (PyVal.int k) =
      Except.error ("Supplied scale value (" ++ String.mk (intStr k) ++ ") is not valid") := by
  rcases k with n | n
  · rcases n with _ | _ | _ | n
    · exact absurd rfl h0
    · exact absurd rfl h1
    · exact absurd rfl h2
    · rfl
  · rfl

theorem importDateSystem_int_invalid {k : ℤ} (h0 : k ≠ 0) (h1 : k ≠ 1) (h2 : k ≠ 2) :
    importDateSystem (PyVal.int k) =
      Except.error ("Supplied date systen value (" ++ String.mk (intStr k) ++ ") is not valid") := by
  rcases k with n | n
  · rcases n with _ | _ | _ | n
    · exact absurd rfl h0
    · exact absurd rfl h1
    · exact absurd rfl h2
    · rfl
  · rfl

/-- C5, amended.  The import helpers and the operations routed through them
(the constructors, `nsecs` and `get`) accept the integer codes 0, 1, 2
interchangeably with the corresponding enum members and reject any other
integer; but `mjd` bypasses the import entirely and rejects EVERY integer
argument, valid codes included, so the claim fails for `mjd`. -/
theorem claim_C5_integer_codes (τ q : ℚ) (n j : ℤ) {k : ℤ}
    (h0 : k ≠ 0) (h1 : k ≠ 1) (h2 : k ≠ 2) :
    (importScale (PyVal.int 0) = Except.ok Timescale.TAI ∧
      importScale (PyVal.int 1) = Except.ok Timescale.UTC ∧
      importScale (PyVal.int 2) = Except.ok Timescale.TT ∧
      importDateSystem (PyVal.int 0) = Except.ok DateSystem.JD ∧
      importDateSystem (PyVal.int 1) = Except.ok DateSystem.MJD ∧
      importDateSystem (PyVal.int 2) = Except.ok DateSystem.EPOCH) ∧
    (DateTime.ctor [PyVal.int n, PyVal.int 0]
        = DateTime.ctor [PyVal.int n, PyVal.scaleE Timescale.TAI] ∧
      DateTime.ctor [PyVal.int n, PyVal.int 1]
        = DateTime.ctor [PyVal.int n, PyVal.scaleE Timescale.UTC] ∧
      DateTime.ctor [PyVal.float q, PyVal.int 1, PyVal.int 1]
        = DateTime.ctor [PyVal.float q, PyVal.sysE DateSystem.MJD,
            PyVal.scaleE Timescale.UTC] ∧
      DateTime.nsecs τ (some (PyVal.int 0))
        = DateTime.nsecs τ (some (PyVal.scaleE Timescale.TAI)) ∧
      DateTime.nsecs τ (some (PyVal.int 1))
        = DateTime.nsecs τ (some (PyVal.scaleE Timescale.UTC)) ∧
      DateTime.get τ [PyVal.int 1, PyVal.int 1]
        = DateTime.get τ [PyVal.sysE DateSystem.MJD, PyVal.scaleE Timescale.UTC]) ∧
    (importScale (PyVal.int k) =
        Except.error ("Supplied scale value (" ++ String.mk (intStr k) ++ ") is not valid") ∧
      importDateSystem (PyVal.int k) =
        Except.error ("Supplied date systen value ("
          ++ String.mk (intStr k) ++ ") is not valid")) ∧
    DateTime.mjd τ [PyVal.int j] = Except.error "Unexpected time scale provided" := by
  refine ⟨⟨rfl, rfl, rfl, rfl, rfl, rfl⟩, ⟨rfl, rfl, rfl, rfl, rfl, rfl⟩,
    ⟨importScale_int_invalid h0 h1 h2, importDateSystem_int_invalid h0 h1 h2⟩, rfl⟩

/-- C5, counterexample to the claim as stated.  `mjd` does not accept the
valid integer code 1 for UTC: it raises, while the enum member succeeds. -/
theorem claim_C5_counterexample :
    DateTime.mjd (63072010 : ℚ) [PyVal.int 1]
      = Except.error "Unexpected time scale provided" ∧
    DateTime.mjd (63072010 : ℚ) [PyVal.scaleE Timescale.UTC]
      = Except.ok (41317 : ℚ) := by
  refine ⟨rfl, ?_⟩
  decide

/-- C5, witness.  The amended theorem applied at concrete inputs: internal
instant 0, integer payload 5, mjd argument 1, invalid code 7. -/
theorem claim_C5_witness :
    ((7 : ℤ) ≠ 0 ∧ (7 : ℤ) ≠ 1 ∧ (7 : ℤ) ≠ 2) ∧
    ((importScale (PyVal.int 0) = Except.ok Timescale.TAI ∧
      importScale (PyVal.int 1) = Except.ok Timescale.UTC ∧
      importScale (PyVal.int 2) = Except.ok Timescale.TT ∧
      importDateSystem (PyVal.int 0) = Except.ok DateSystem.JD ∧
      importDateSystem (PyVal.int 1) = Except.ok DateSystem.MJD ∧
      importDateSystem (PyVal.int 2) = Except.ok DateSystem.EPOCH) ∧
    (DateTime.ctor [PyVal.int 5, PyVal.int 0]
        = DateTime.ctor [PyVal.int 5, PyVal.scaleE Timescale.TAI] ∧
      DateTime.ctor [PyVal.int 5, PyVal.int 1]
        = DateTime.ctor [PyVal.int 5, PyVal.scaleE Timescale.UTC] ∧
      DateTime.ctor [PyVal.float 45205, PyVal.int 1, PyVal.int 1]
        = DateTime.ctor [PyVal.float 45205, PyVal.sysE DateSystem.MJD,
            PyVal.scaleE Timescale.UTC] ∧
      DateTime.nsecs 0 (some (PyVal.int 0))
        = DateTime.nsecs 0 (some (PyVal.scaleE Timescale.TAI)) ∧
      DateTime.nsecs 0 (some (PyVal.int 1))
        = DateTime.nsecs 0 (some (PyVal.scaleE Timescale.UTC)) ∧
      DateTime.get 0 [PyVal.int 1, PyVal.int 1]
        = DateTime.get 0 [PyVal.sysE DateSystem.MJD, PyVal.scaleE Timescale.UTC]) ∧
    (importScale (PyVal.int 7) =
        Except.error ("Supplied scale value (" ++ String.mk (intStr 7) ++ ") is not valid") ∧
      importDateSystem (PyVal.int 7) =
        Except.error ("Supplied date systen value ("
          ++ String.mk (intStr 7) ++ ") is not valid")) ∧
    DateTime.mjd 0 [PyVal.int 1] = Except.error "Unexpected time scale provided") :=
  ⟨⟨by decide, by decide, by decide⟩,
   claim_C5_integer_codes 0 45205 5 1 (by decide) (by decide) (by decide)⟩

/-! ### Render/parse round trip: list splitting helpers -/

theorem not_mem_of_all_isDig {l : List Char} {c : Char} (hl : l.all isDig = true)
    (hc : isDig c = false) : c ∉ l := by
  intro hmem
  have := List.all_eq_true.mp hl c hmem
  rw [hc] at this
  exact Bool.noConfusion this

theorem splitAtChar_append {c : Char} {l₂ : List Char} (l₁ : List Char) (h : c ∉ l₁) :
    splitAtChar c (l₁ ++ c :: l₂) = some (l₁, l₂) := by
  induction l₁ with
  | nil => rw [List.nil_append, splitAtChar, if_pos rfl]
  | cons x xs ih =>
      have hx : x ≠ c := fun hxc => h (hxc ▸ List.mem_cons_self x xs)
      have hxs : c ∉ xs := fun hm => h (List.mem_cons_of_mem x hm)
      rw [List.cons_append, splitAtChar, if_neg hx, ih hxs]
      rfl

theorem splitLastChar_append {c : Char} {l₂ : List Char} (l₁ : List Char) (h : c ∉ l₂) :
    splitLastChar c (l₁ ++ c :: l₂) = some (l₁, l₂) := by
  have hrev : (l₁ ++ c :: l₂).reverse = l₂.reverse ++ c :: l₁.reverse := by
    simp
  have hnm : c ∉ l₂.reverse := by
    rw [List.mem_reverse]
    exact h
  rw [splitLastChar, hrev, splitAtChar_append _ hnm]
  simp

theorem getLast?_append_right {α : Type} (l₁ : List α) {l₂ : List α} (h : l₂ ≠ []) :
    (l₁ ++ l₂).getLast? = l₂.getLast? := by
  rw [List.getLast?_append]
  cases l₂ with
  | nil => exact absurd rfl h
  | cons b bs =>
      rw [List.getLast?_cons]
      rfl

theorem padDigits_ne_nil {w : ℕ} (hw : 0 < w) (n : ℕ) : padDigits w n ≠ [] := by
  intro hnil
  have := padDigits_length w n
  rw [hnil] at this
  simp at this
  omega

theorem padDigits_getLast {w n : ℕ} (hw : 0 < w) :
    ∃ c, (padDigits w n).getLast? = some c ∧ isDig c = true := by
  obtain ⟨w0, rfl⟩ : ∃ w0, w = w0 + 1 := ⟨w - 1, by omega⟩
  refine ⟨digChar (n % 10), ?_, isDig_digChar (by omega)⟩
  rw [padDigits]
  rw [getLast?_append_right _ (by simp)]
  rfl

theorem parseNat_padDigits {w n : ℕ} (hw : 0 < w) (h : n < 10 ^ w) :
    parseNat (padDigits w n) = some n := by
  rw [parseNat, if_pos ⟨padDigits_ne_nil hw n, padDigits_all_digits w n⟩,
    parseDigits_padDigits, Nat.mod_eq_of_lt h]

theorem padDigits_not_mem {c : Char} (hc : isDig c = false) (w n : ℕ) :
    c ∉ padDigits w n :=
  not_mem_of_all_isDig (padDigits_all_digits w n) hc

theorem parseIsotFields_render (y mo dd h mi s fr : ℕ)
    (hy2 : y < 10000) (hmo1 : 1 ≤ mo) (hmo2 : mo ≤ 12)
    (hdd1 : 1 ≤ dd) (hdd2 : dd ≤ 31) (hh : h ≤ 23) (hmi : mi ≤ 59) (hs : s ≤ 60)
    (hfr : fr < 10 ^ 9) :
    parseIsotFields (isoCharsSec y mo dd h mi s ++ '.' :: padDigits 9 fr)
      = some (y, mo, dd, h, mi, s, (fr : ℚ) / 10 ^ 9) := by
  have hshape : isoCharsSec y mo dd h mi s ++ '.' :: padDigits 9 fr
      = ((padDigits 4 y ++ '-' :: (padDigits 2 mo ++ '-' :: padDigits 2 dd))
          ++ 'T' :: (padDigits 2 h ++ ':' :: (padDigits 2 mi ++ ':' :: padDigits 2 s)))
        ++ '.' :: padDigits 9 fr := by
    rw [isoCharsSec, yearChars, if_pos hy2]
    simp [List.append_assoc]
  have hne9 : padDigits 9 fr ≠ [] := padDigits_ne_nil (by norm_num) fr
  obtain ⟨cl, hcl, hcld⟩ := padDigits_getLast (w := 9) (n := fr) (by norm_num)
  have hM : ∀ M : List Char, (M ++ '.' :: padDigits 9 fr).getLast? = some cl := by
    intro M
    rw [getLast?_append_right _ (by simp), List.getLast?_cons, hcl]
    rfl
  have hdotnm : ('.' : Char) ∉ padDigits 9 fr := padDigits_not_mem (by decide) 9 fr
  rw [hshape]
  simp only [parseIsotFields]
  have hcond : ((padDigits 4 y ++ '-' :: (padDigits 2 mo ++ '-' :: padDigits 2 dd)
          ++ 'T' :: (padDigits 2 h ++ ':' :: (padDigits 2 mi ++ ':' :: padDigits 2 s))
        ++ '.' :: padDigits 9 fr).getLast? = some 'Z') = False := by
    rw [hM]
    simp only [Option.some.injEq, eq_iff_iff, iff_false]
    intro hcon
    rw [hcon] at hcld
    exact absurd hcld (by decide)
  simp only [hcond, if_false]
  have hsplitdot : splitLastChar '.'
      ((padDigits 4 y ++ '-' :: (padDigits 2 mo ++ '-' :: padDigits 2 dd)
        ++ 'T' :: (padDigits 2 h ++ ':' :: (padDigits 2 mi ++ ':' :: padDigits 2 s)))
       ++ '.' :: padDigits 9 fr)
      = some (padDigits 4 y ++ '-' :: (padDigits 2 mo ++ '-' :: padDigits 2 dd)
        ++ 'T' :: (padDigits 2 h ++ ':' :: (padDigits 2 mi ++ ':' :: padDigits 2 s)),
        padDigits 9 fr) :=
    splitLastChar_append _ hdotnm
  split
  · rename_i heq
    rw [hsplitdot] at heq
    exact Option.noConfusion heq
  · rename_i m fr2 heq
    rw [hsplitdot] at heq
    obtain ⟨hm, hfr2⟩ := Prod.mk.injEq .. ▸ Option.some.injEq .. ▸ heq
    subst hfr2
    subst hm
    rw [if_pos ⟨hne9, padDigits_all_digits 9 fr⟩]
    rw [Option.bind_eq_bind, Option.some_bind]
    beta_reduce
    have hTnm : ('T' : Char) ∉ (padDigits 4 y ++ '-' :: (padDigits 2 mo ++ '-' :: padDigits 2 dd)) := by
      simp only [List.mem_append, List.mem_cons]
      push_neg
      exact ⟨padDigits_not_mem (by decide) 4 y, by decide,
        padDigits_not_mem (by decide) 2 mo, by decide, padDigits_not_mem (by decide) 2 dd⟩
    have hsplitT : splitAtChar 'T'
        ((padDigits 4 y ++ '-' :: (padDigits 2 mo ++ '-' :: padDigits 2 dd))
          ++ 'T' :: (padDigits 2 h ++ ':' :: (padDigits 2 mi ++ ':' :: padDigits 2 s)))
        = some (padDigits 4 y ++ '-' :: (padDigits 2 mo ++ '-' :: padDigits 2 dd),
          padDigits 2 h ++ ':' :: (padDigits 2 mi ++ ':' :: padDigits 2 s)) :=
      splitAtChar_append _ hTnm
    split
    · rename_i date time heq2
      dsimp only at heq2
      rw [hsplitT] at heq2
      obtain ⟨hdate, htime⟩ := Prod.mk.injEq .. ▸ Option.some.injEq .. ▸ heq2
      subst hdate
      subst htime
      rw [Option.bind_eq_bind, Option.some_bind]
      beta_reduce
      dsimp only
      rw [splitAtChar_append (padDigits 4 y) (padDigits_not_mem (by decide) 4 y)]
      rw [Option.bind_eq_bind, Option.some_bind]
      beta_reduce
      dsimp only
      rw [splitAtChar_append (padDigits 2 mo) (padDigits_not_mem (by decide) 2 mo)]
      rw [Option.bind_eq_bind, Option.some_bind]
      beta_reduce
      dsimp only
      rw [parseNat_padDigits (by norm_num) (by omega)]
      rw [Option.some_bind]
      beta_reduce
      rw [parseNat_padDigits (by norm_num) (by omega : mo < 10 ^ 2)]
      rw [Option.some_bind]
      beta_reduce
      rw [parseNat_padDigits (by norm_num) (by omega : dd < 10 ^ 2)]
      rw [Option.some_bind]
      beta_reduce
      split
      · rename_i heq3
        rw [List.append_eq_nil] at heq3
        exact List.noConfusion heq3.2
      · rename_i c2 cs2 heq3
        rw [splitAtChar_append (padDigits 2 h) (padDigits_not_mem (by decide) 2 h)]
        split
        · rename_i heq4
          exact Option.noConfusion heq4
        · rename_i hs2 rest2 heq4
          obtain ⟨hhs2, hrest2⟩ := Prod.mk.injEq .. ▸ Option.some.injEq .. ▸ heq4
          subst hhs2
          subst hrest2
          rw [splitAtChar_append (padDigits 2 mi) (padDigits_not_mem (by decide) 2 mi)]
          split
          · rename_i heq5
            exact Option.noConfusion heq5
          · rename_i mis ss heq5
            obtain ⟨hmis, hss⟩ := Prod.mk.injEq .. ▸ Option.some.injEq .. ▸ heq5
            subst hmis
            subst hss
            rw [parseNat_padDigits (by norm_num) (by omega : h < 10 ^ 2)]
            rw [Option.some_bind]
            beta_reduce
            rw [parseNat_padDigits (by norm_num) (by omega : mi < 10 ^ 2)]
            rw [Option.some_bind]
            beta_reduce
            rw [parseNat_padDigits (by norm_num) (by omega : s < 10 ^ 2)]
            rw [Option.some_bind]
            beta_reduce
            rw [Option.some_bind]
            beta_reduce
            dsimp only
            rw [if_pos ⟨hmo1, hmo2, hdd1, hdd2, hh, hmi, hs⟩]
            rw [parseDigits_padDigits, padDigits_length, Nat.mod_eq_of_lt hfr]
    · rename_i heq2
      dsimp only at heq2
      rw [hsplitT] at heq2
      exact Option.noConfusion heq2

theorem parseIsot_render (sc : Timescale) (y mo dd h mi s fr : ℕ)
    (hy2 : y < 10000) (hmo1 : 1 ≤ mo) (hmo2 : mo ≤ 12)
    (hdd1 : 1 ≤ dd) (hdd2 : dd ≤ 31) (hh : h ≤ 23) (hmi : mi ≤ 59) (hs : s ≤ 60)
    (hfr : fr < 10 ^ 9) :
    parseIsot sc (isoCharsSec y mo dd h mi s ++ '.' :: padDigits 9 fr)
      = some (instantOfFields sc y mo dd h mi ((s : ℚ) + (fr : ℚ) / 10 ^ 9)) := by
  rw [parseIsot, parseIsotFields_render y mo dd h mi s fr hy2 hmo1 hmo2 hdd1 hdd2 hh hmi hs hfr]
  rfl

theorem floor_div_billion (n : ℤ) : ⌊((n : ℚ)) / 1000000000⌋ = n / 1000000000 := by
  rw [Int.floor_eq_iff]
  constructor
  · rw [le_div_iff (by norm_num : (0:ℚ) < 1000000000)]
    have h : (n / 1000000000) * 1000000000 ≤ n := by omega
    exact_mod_cast h
  · rw [div_lt_iff (by norm_num : (0:ℚ) < 1000000000)]
    have h : n < (n / 1000000000 + 1) * 1000000000 := by omega
    exact_mod_cast h

theorem pyInt_div_billion {n : ℤ} (h0 : 0 ≤ n) :
    pyInt ((n : ℚ) / 1000000000) = n / 1000000000 := by
  rw [pyInt_of_nonneg (by positivity), floor_div_billion]

theorem uniformDaySec_int (t : ℤ) :
    uniformDaySec 0 ((t : ℤ) : ℚ) = (40587 + t / 86400, t % 86400) := by
  have hfl : ⌊((t : ℚ) + 0) + 1/2⌋ = t := by
    rw [add_zero, Int.floor_int_add]
    norm_num
  simp only [uniformDaySec, hfl]

theorem hmsOfSec_spec {n : ℤ} (h0 : 0 ≤ n) (h1 : n < 86400) :
    (hmsOfSec n).1 = n / 3600 ∧ (hmsOfSec n).2.1 = n % 3600 / 60 ∧
      (hmsOfSec n).2.2 = n % 60 ∧
      n / 3600 ≤ 23 ∧ n % 3600 / 60 ≤ 59 ∧ n % 60 ≤ 59 ∧
      3600 * (n / 3600) + 60 * (n % 3600 / 60) + n % 60 = n := by
  simp only [hmsOfSec]
  omega

theorem isotSec_TAI_fields (τ : ℚ) :
    isotSec Timescale.TAI τ =
      isoCharsSec (mjdToYmd (uniformDaySec 0 τ).1).1 (mjdToYmd (uniformDaySec 0 τ).1).2.1
        (mjdToYmd (uniformDaySec 0 τ).1).2.2 ((hmsOfSec (uniformDaySec 0 τ).2).1).toNat
        ((hmsOfSec (uniformDaySec 0 τ).2).2.1).toNat
        ((hmsOfSec (uniformDaySec 0 τ).2).2.2).toNat := rfl

theorem exceptOkBind {ε α β : Type} (v : α) (f : α → Except ε β) :
    (do let y ← Except.ok v; f y) = f v := rfl

theorem intCtor_TAI_nonneg {n : ℤ} (h0 : 0 ≤ n) (hsz : n ≤ 9200000000000000000) :
    DateTime.intCtor n Timescale.TAI = Except.ok ((n : ℚ) / 1000000000) := by
  have hnat : ((n.natAbs : ℕ) : ℤ) = n := Int.natAbs_of_nonneg h0
  have hp64 : (10 : ℕ) ^ 64 = 10000000000000000000000000000000000000000000000000000000000000000 := by
    norm_num
  have hna64 : n.natAbs < 10 ^ 64 := by omega
  have hp9 : (10 : ℕ) ^ 9 = 1000000000 := by norm_num
  have hfrz : ((lastNine n.natAbs : ℕ) : ℤ) = n % 1000000000 := by
    rw [lastNine_eq_mod hna64, hp9]
    omega
  have hpy : pyInt ((n : ℚ) / 1000000000) = n / 1000000000 := pyInt_div_billion h0
  have hval : ((n / 1000000000 : ℤ) : ℚ) = (n : ℚ) / 1000000000 - ((n % 1000000000 : ℤ) : ℚ) / 1000000000 := by
    field_simp
    exact_mod_cast (by omega : (n / 1000000000) * 1000000000 = n - n % 1000000000)
  by_cases hf : n % 1000000000 = 0
  · simp only [DateTime.intCtor, hfrz, hf, hpy]
    rw [exceptOkBind, if_neg (by simp), hval, hf]
    norm_num
  · simp only [DateTime.intCtor, hfrz, hpy]
    rw [exceptOkBind, if_pos hf, if_pos (by rw [decide_eq_true_eq]; exact h0)]
    set t := n / 1000000000 with ht
    have ht0 : 0 ≤ t := by omega
    have hthi : t ≤ 9200000000 := by omega
    have hds := uniformDaySec_int t
    obtain ⟨y, mo, dd, hymd⟩ : ∃ y mo dd, mjdToYmd (40587 + t / 86400) = (y, mo, dd) :=
      ⟨_, _, _, rfl⟩
    have hdaylo : (0:ℤ) ≤ 40587 + t / 86400 := by omega
    have hdayhi : 40587 + t / 86400 < 150000 := by omega
    obtain ⟨hy1, hy2, hmo1, hmo2, hdd1, hdd2⟩ := mjdToYmd_bounds hdaylo hdayhi hymd
    have hsod0 : (0:ℤ) ≤ t % 86400 := by omega
    have hsod1 : t % 86400 < 86400 := by omega
    obtain ⟨hc1, hc2, hc3, hhb, hmib, hsb, hrec⟩ := hmsOfSec_spec hsod0 hsod1
    have hisot : isotSec Timescale.TAI ((t : ℤ) : ℚ)
        = isoCharsSec y mo dd (t % 86400 / 3600).toNat (t % 86400 % 3600 / 60).toNat
            (t % 86400 % 60).toNat := by
      rw [isotSec_TAI_fields, hds]
      rw [hymd, hc1, hc2, hc3]
    have hH : (t % 86400 / 3600).toNat ≤ 23 := by omega
    have hMI : (t % 86400 % 3600 / 60).toNat ≤ 59 := by omega
    have hS : (t % 86400 % 60).toNat ≤ 60 := by omega
    have hfr9 : (n % 1000000000).toNat < 10 ^ 9 := by
      rw [hp9]
      omega
    have hparse := parseIsot_render Timescale.TAI y mo dd
      (t % 86400 / 3600).toNat (t % 86400 % 3600 / 60).toNat (t % 86400 % 60).toNat
      (n % 1000000000).toNat (by omega) hmo1 hmo2 hdd1 hdd2 hH hMI hS hfr9
    rw [hisot, hparse]
    have hmjd : ymdToMjd y mo dd = 40587 + t / 86400 :=
      ymdToMjd_mjdToYmd (by omega) hymd
    show Except.ok (instantOfFields Timescale.TAI y mo dd (t % 86400 / 3600).toNat
        (t % 86400 % 3600 / 60).toNat
        (((t % 86400 % 60).toNat : ℚ) + ((n % 1000000000).toNat : ℚ) / 10 ^ 9))
      = Except.ok ((n : ℚ) / 1000000000)
    congr 1
    rw [instantOfFields, hmjd]
    rw [posix0]
    have e1 : ((t % 86400 / 3600).toNat : ℚ) = ((t % 86400 / 3600 : ℤ) : ℚ) := by
      exact_mod_cast congrArg (fun z : ℤ => ((z : ℚ)))
        (Int.toNat_of_nonneg (by omega : (0:ℤ) ≤ t % 86400 / 3600))
    have e2 : ((t % 86400 % 3600 / 60).toNat : ℚ) = ((t % 86400 % 3600 / 60 : ℤ) : ℚ) := by
      exact_mod_cast congrArg (fun z : ℤ => ((z : ℚ)))
        (Int.toNat_of_nonneg (by omega : (0:ℤ) ≤ t % 86400 % 3600 / 60))
    have e3 : ((t % 86400 % 60).toNat : ℚ) = ((t % 86400 % 60 : ℤ) : ℚ) := by
      exact_mod_cast congrArg (fun z : ℤ => ((z : ℚ)))
        (Int.toNat_of_nonneg (by omega : (0:ℤ) ≤ t % 86400 % 60))
    have e4 : ((n % 1000000000).toNat : ℚ) = ((n % 1000000000 : ℤ) : ℚ) := by
      exact_mod_cast congrArg (fun z : ℤ => ((z : ℚ)))
        (Int.toNat_of_nonneg (by omega : (0:ℤ) ≤ n % 1000000000))
    rw [e1, e2, e3, e4]
    have hcast : (((40587 + t / 86400 : ℤ) : ℚ) - 40587) * 86400
        + (3600 * ((t % 86400 / 3600 : ℤ) : ℚ)
          + 60 * ((t % 86400 % 3600 / 60 : ℤ) : ℚ) + ((t % 86400 % 60 : ℤ) : ℚ)) = (t : ℚ) := by
      have : (40587 + t / 86400 - 40587) * 86400
          + (3600 * (t % 86400 / 3600) + 60 * (t % 86400 % 3600 / 60) + t % 86400 % 60) = t := by
        omega
      exact_mod_cast congrArg (fun z : ℤ => ((z : ℚ))) this
    push_cast at hcast ⊢
    have h109 : ((10:ℚ) ^ 9) = 1000000000 := by norm_num
    rw [h109]
    linarith [hcast, hval]

theorem intCtor_TAI_neg {n : ℤ} (h0 : n < 0) (hsz : -9200000000000000000 ≤ n) :
    DateTime.intCtor n Timescale.TAI = Except.ok ((n : ℚ) / 1000000000) := by
  have hnat : ((n.natAbs : ℕ) : ℤ) = -n := by omega
  have hp64 : (10 : ℕ) ^ 64 = 10000000000000000000000000000000000000000000000000000000000000000 := by
    norm_num
  have hna64 : n.natAbs < 10 ^ 64 := by omega
  have hp9 : (10 : ℕ) ^ 9 = 1000000000 := by norm_num
  have hfrz : ((lastNine n.natAbs : ℕ) : ℤ) = (-n) % 1000000000 := by
    rw [lastNine_eq_mod hna64, hp9]
    omega
  have hargneg : ((n : ℚ)) / 1000000000 < 0 := by
    apply div_neg_of_neg_of_pos _ (by norm_num)
    exact_mod_cast h0
  have hpy : pyInt ((n : ℚ) / 1000000000) = -((-n) / 1000000000) := by
    rw [pyInt, if_pos hargneg,
      show ((n : ℚ)) / 1000000000 = -(((-n : ℤ) : ℚ) / 1000000000) by push_cast; ring,
      Int.ceil_neg, floor_div_billion]
  have hfp : decide (0 ≤ n) = false := decide_eq_false (by omega)
  by_cases hfcase : (-n) % 1000000000 = 0
  · simp only [DateTime.intCtor, hfrz, hfcase, hpy]
    rw [exceptOkBind, if_neg (by simp)]
    congr 1
    rw [eq_div_iff (by norm_num : (1000000000 : ℚ) ≠ 0)]
    exact_mod_cast (by omega : -((-n) / 1000000000) * 1000000000 = n)
  · simp only [DateTime.intCtor, hfrz, hpy, hfp]
    rw [exceptOkBind, if_pos hfcase, if_neg (by simp)]
    congr 1
    field_simp
    exact_mod_cast (by omega :
      -((-n) / 1000000000 * 1000000000) - (-n) % 1000000000 = n)

theorem intCtor_TAI {n : ℤ} (hsz : n.natAbs ≤ 9200000000000000000) :
    DateTime.intCtor n Timescale.TAI = Except.ok ((n : ℚ) / 1000000000) := by
  rcases lt_or_le n 0 with h | h
  · exact intCtor_TAI_neg h (by omega)
  · exact intCtor_TAI_nonneg h (by omega)

/-! ### C9: negative inputs, ordering -/

/-- C9, amended.  On the whole-second grid within plus or minus 4.6e9
seconds -- where a nanosecond count `s * 10^9` has at most 53 significant
bits, so the program's float64 conversion and division by 1e9 are exact --
the TAI constructor stores exactly s seconds, and for every pair s < t the
stored instants are strictly ordered and astropy equality distinguishes
them, negative inputs included.  The claimed round-trip part fails before
1972 (see the counterexample), and for general nanosecond counts the
float64 conversion of the input can move it into the adjacent second, so
the pairwise ordering is not stated beyond this grid. -/
theorem claim_C9_ordering {s t : ℤ} (hs : s.natAbs ≤ 4600000000)
    (ht : t.natAbs ≤ 4600000000) (hst : s < t) :
    ∃ τa τb : ℚ,
      DateTime.ctor [PyVal.int (s * 1000000000), PyVal.scaleE Timescale.TAI]
        = Except.ok τa ∧
      DateTime.ctor [PyVal.int (t * 1000000000), PyVal.scaleE Timescale.TAI]
        = Except.ok τb ∧
      τa < τb ∧ DateTime.dtEq τa τb = false := by
  have hca : DateTime.ctor [PyVal.int (s * 1000000000), PyVal.scaleE Timescale.TAI]
      = DateTime.intCtor (s * 1000000000) Timescale.TAI := rfl
  have hcb : DateTime.ctor [PyVal.int (t * 1000000000), PyVal.scaleE Timescale.TAI]
      = DateTime.intCtor (t * 1000000000) Timescale.TAI := rfl
  have h9 : (1000000000 : ℤ).natAbs = 1000000000 := rfl
  have hna : (s * 1000000000).natAbs ≤ 9200000000000000000 := by
    rw [Int.natAbs_mul, h9]
    omega
  have hnb : (t * 1000000000).natAbs ≤ 9200000000000000000 := by
    rw [Int.natAbs_mul, h9]
    omega
  have hlt : ((s : ℤ) : ℚ) < ((t : ℤ) : ℚ) := by exact_mod_cast hst
  refine ⟨((s : ℤ) : ℚ), ((t : ℤ) : ℚ), ?_, ?_, hlt, ?_⟩
  · rw [hca, intCtor_TAI hna, intCast_mul_div_cancel]
  · rw [hcb, intCtor_TAI hnb, intCast_mul_div_cancel]
  · rw [DateTime.dtEq]
    exact decide_eq_false (ne_of_lt hlt)

set_option maxRecDepth 4000 in
/-- C9, counterexample to the round-trip part of the claim.  DateTime(-1,
TAI) is accepted, but reading `nsecs(TAI)` back yields 999918239, not -1:
before 1972 the fractional digits come from the smeared UTC rendering and
the integer part from truncation toward zero. -/
theorem claim_C9_counterexample :
    DateTime.ctor [PyVal.int (-1), PyVal.scaleE Timescale.TAI]
      = Except.ok (-1/1000000000 : ℚ) ∧
    DateTime.nsecs (-1/1000000000 : ℚ) (some (PyVal.scaleE Timescale.TAI))
      = Except.ok 999918239 ∧
    (999918239 : ℤ) ≠ -1 := by
  refine ⟨?_, ?_, ?_⟩ <;> decide

/-- C9, witness.  The amended theorem applied at the whole seconds -1 and
0: DateTime(-1000000000, TAI) stores -1 s and orders strictly below
DateTime(0, TAI), and equality distinguishes the two. -/
theorem claim_C9_witness :
    ((-1 : ℤ).natAbs ≤ 4600000000 ∧ (0 : ℤ).natAbs ≤ 4600000000 ∧ (-1 : ℤ) < 0) ∧
    (∃ τa τb : ℚ,
      DateTime.ctor [PyVal.int ((-1 : ℤ) * 1000000000), PyVal.scaleE Timescale.TAI]
        = Except.ok τa ∧
      DateTime.ctor [PyVal.int ((0 : ℤ) * 1000000000), PyVal.scaleE Timescale.TAI]
        = Except.ok τb ∧
      τa < τb ∧ DateTime.dtEq τa τb = false) :=
  ⟨⟨by decide, by decide, by decide⟩,
   claim_C9_ordering (by decide) (by decide) (by decide)⟩

/-! ### C3: round trips per scale -/

theorem nsecs_TAI_exact {n : ℤ} (h0 : 0 ≤ n) (hsz : n ≤ 9200000000000000000)
    (hthr : 63072000 < unixOfTai ((n : ℚ) / 1000000000)) :
    DateTime.nsecs ((n : ℚ) / 1000000000) (some (PyVal.scaleE Timescale.TAI))
      = Except.ok n := by
  have hτ0 : (0:ℚ) ≤ (n : ℚ) / 1000000000 := by positivity
  have hτhi : (n : ℚ) / 1000000000 ≤ 9300000000 := by
    rw [div_le_iff (by norm_num : (0:ℚ) < 1000000000)]
    exact_mod_cast (by omega : n ≤ (9300000000 : ℤ) * 1000000000)
  obtain ⟨hd0, hd1⟩ := uniformDayNs_day_bounds hτ0 hτhi
  have hy := mjdToYmd_year_lt hd0 hd1
  have htot : ⌊(((n : ℚ) / 1000000000) + 0) * 1000000000 + 1/2⌋ = n := by
    rw [add_zero, div_mul_cancel₀ _ (by norm_num : (1000000000:ℚ) ≠ 0), Int.floor_int_add]
    norm_num
  have hUD : uniformDayNs 0 ((n : ℚ) / 1000000000)
      = (40587 + n / 86400000000000, n % 86400000000000) := by
    simp only [uniformDayNs, htot]
  have hfr : (hmsOfNs (n % 86400000000000)).2.2 % 1000000000 = n % 1000000000 ∧
      0 ≤ (hmsOfNs (n % 86400000000000)).2.2 := by
    simp only [hmsOfNs]
    omega
  set F0 : ℕ := (((hmsOfNs (uniformDayNs 0 ((n : ℚ) / 1000000000)).2).2.2)
    % 1000000000).toNat with hF0
  have hF0v : ((F0 : ℕ) : ℤ) = n % 1000000000 := by
    rw [hF0, hUD]
    rw [Int.toNat_of_nonneg (by omega : (0:ℤ) ≤ (hmsOfNs (n % 86400000000000)).2.2 % 1000000000)]
    exact hfr.1
  have hslice : pySlice (isotNs Timescale.TAI ((n : ℚ) / 1000000000)) 20 29
      = padDigits 9 F0 := by
    rw [isotNs_TAI_fields]
    exact iso_slice hy
  have hiso : (if 63072000 < unixOfTai ((n : ℚ) / 1000000000)
      then isotNs Timescale.TAI ((n : ℚ) / 1000000000)
      else isotNs Timescale.UTC ((n : ℚ) / 1000000000))
      = isotNs Timescale.TAI ((n : ℚ) / 1000000000) := if_pos hthr
  have hpy : pyInt ((n : ℚ) / 1000000000) = n / 1000000000 := pyInt_div_billion h0
  have hint0 : 0 ≤ n / 1000000000 := by omega
  have hp64 : (10 : ℕ) ^ 64
      = 10000000000000000000000000000000000000000000000000000000000000000 := by norm_num
  have hsz' : (n / 1000000000).natAbs < 10 ^ 64 := by
    rw [hp64]
    omega
  rw [nsecs_eq_TAI, hiso, hslice, hpy, pyLong_concat hint0 hsz' F0]
  have hFlt : F0 < 10 ^ 9 := by
    have h9 : (10 : ℕ) ^ 9 = 1000000000 := by norm_num
    omega
  rw [Nat.mod_eq_of_lt hFlt]
  have h9z : (10 : ℤ) ^ 9 = 1000000000 := by norm_num
  rw [h9z, hF0v]
  have hfin : n / 1000000000 * 1000000000 + n % 1000000000 = n := by omega
  rw [hfin]

theorem floor_intCast_div {n d : ℤ} (hd : 0 < d) :
    ⌊((n : ℚ)) / ((d : ℤ) : ℚ)⌋ = n / d := by
  have hdq : (0:ℚ) < ((d : ℤ) : ℚ) := by exact_mod_cast hd
  rw [Int.floor_eq_iff]
  constructor
  · rw [le_div_iff hdq]
    have h : (n / d) * d ≤ n := Int.ediv_mul_le n (by omega)
    exact_mod_cast h
  · rw [div_lt_iff hdq]
    have h : n < (n / d + 1) * d := by
      have := Int.emod_nonneg n (by omega : d ≠ 0)
      have := Int.emod_lt_of_pos n hd
      have := Int.ediv_add_emod n d
      nlinarith
    exact_mod_cast h

theorem utcDayOfUnix_int (u : ℤ) : utcDayOfUnix ((u : ℤ) : ℚ) = 40587 + u / 86400 := by
  rw [utcDayOfUnix]
  congr 1
  rw [show ((86400 : ℚ)) = ((86400 : ℤ) : ℚ) by norm_num, floor_intCast_div (by norm_num)]

theorem posix0_int_day (u : ℤ) :
    posix0 (40587 + u / 86400) = ((u / 86400 * 86400 : ℤ) : ℚ) := by
  rw [posix0]
  push_cast
  ring

theorem unixOfTai_near (τ : ℚ) : τ - 76 ≤ unixOfTai τ := by
  obtain ⟨h1, h2⟩ := utcDayOfTai_spec τ
  obtain ⟨hb1, hb2⟩ := dAT_bounds (utcDayOfTai τ)
  have hlb := tai0_day_len_lb (utcDayOfTai τ)
  have hub := tai0_day_len_ub (utcDayOfTai τ)
  have hpos := tai0_day_len_pos (utcDayOfTai τ)
  rw [unixOfTai]
  have htd : tai0 (utcDayOfTai τ) = posix0 (utcDayOfTai τ) + dAT (utcDayOfTai τ) := rfl
  rw [← sub_le_iff_le_add', le_div_iff hpos]
  nlinarith [h1, h2, hb1, hb2, hlb, hub,
    mul_nonneg (by linarith : (0:ℚ) ≤ τ - tai0 (utcDayOfTai τ))
      (by linarith : (0:ℚ) ≤ 86438 - (tai0 (utcDayOfTai τ + 1) - tai0 (utcDayOfTai τ))),
    mul_nonneg (by linarith : (0:ℚ) ≤ tai0 (utcDayOfTai τ + 1) - τ)
      (by linarith : (0:ℚ) ≤ tai0 (utcDayOfTai τ + 1) - tai0 (utcDayOfTai τ) - 86362)]

theorem isotSec_UTC_fields (τ : ℚ) :
    isotSec Timescale.UTC τ =
      isoCharsSec (mjdToYmd (utcDaySec τ).1).1 (mjdToYmd (utcDaySec τ).1).2.1
        (mjdToYmd (utcDaySec τ).1).2.2 ((hmsOfSec (utcDaySec τ).2).1).toNat
        ((hmsOfSec (utcDaySec τ).2).2.1).toNat
        ((hmsOfSec (utcDaySec τ).2).2.2).toNat := rfl

theorem tai0_flat_int {u off : ℤ} (hd41 : 41317 ≤ 40587 + u / 86400)
    (hoff : off = offIntZ (40587 + u / 86400)) :
    tai0 (40587 + u / 86400) = ((u / 86400 * 86400 : ℤ) : ℚ) + ((off : ℤ) : ℚ) := by
  rw [tai0, dAT_int hd41, posix0_int_day, hoff]

theorem utcDayOfTai_flat_int {u off : ℤ} (hd41 : 41317 ≤ 40587 + u / 86400)
    (hoff : off = offIntZ (40587 + u / 86400))
    (hflat : offIntZ (40587 + u / 86400 + 1) = offIntZ (40587 + u / 86400))
    {f : ℚ} (hf0 : 0 ≤ f) (hf1 : f < 1) :
    utcDayOfTai (((u : ℤ) : ℚ) + ((off : ℤ) : ℚ) + f) = 40587 + u / 86400 := by
  have htai0 := tai0_flat_int hd41 hoff
  have hlen := tai0_len_flat hd41 hflat
  have hlo : tai0 (40587 + u / 86400) ≤ ((u : ℤ) : ℚ) + ((off : ℤ) : ℚ) + f := by
    rw [htai0]
    have h : ((u / 86400 * 86400 : ℤ) : ℚ) ≤ ((u : ℤ) : ℚ) := by
      exact_mod_cast (by omega : u / 86400 * 86400 ≤ u)
    linarith
  have hhi : ((u : ℤ) : ℚ) + ((off : ℤ) : ℚ) + f < tai0 (40587 + u / 86400 + 1) := by
    have h : tai0 (40587 + u / 86400 + 1) = tai0 (40587 + u / 86400) + 86400 := by
      linarith [hlen]
    rw [h, htai0]
    have h2 : ((u : ℤ) : ℚ) ≤ ((u / 86400 * 86400 : ℤ) : ℚ) + 86399 := by
      exact_mod_cast (by omega : u ≤ u / 86400 * 86400 + 86399)
    linarith
  exact utcDay_unique hlo hhi

theorem utcDaySec_flat_int {u off : ℤ} (hd41 : 41317 ≤ 40587 + u / 86400)
    (hoff : off = offIntZ (40587 + u / 86400))
    (hflat : offIntZ (40587 + u / 86400 + 1) = offIntZ (40587 + u / 86400)) :
    utcDaySec (((u : ℤ) : ℚ) + ((off : ℤ) : ℚ)) = (40587 + u / 86400, u % 86400) := by
  have hday : utcDayOfTai (((u : ℤ) : ℚ) + ((off : ℤ) : ℚ)) = 40587 + u / 86400 := by
    have h := utcDayOfTai_flat_int hd41 hoff hflat (le_refl (0:ℚ)) (by norm_num : (0:ℚ) < 1)
    rw [add_zero] at h
    exact h
  have htai0 := tai0_flat_int hd41 hoff
  have hlen := tai0_len_flat hd41 hflat
  have hdisp : dispLen (40587 + u / 86400) = 86400 := by
    rw [dispLen, if_pos hd41, hflat]
    ring
  rw [utcDaySec, hday, hlen, hdisp, htai0]
  have hX : ((u : ℤ) : ℚ) + ((off : ℤ) : ℚ) - (((u / 86400 * 86400 : ℤ) : ℚ)
      + ((off : ℤ) : ℚ)) = ((u % 86400 : ℤ) : ℚ) := by
    have h : ((u : ℤ) : ℚ) - ((u / 86400 * 86400 : ℤ) : ℚ) = ((u % 86400 : ℤ) : ℚ) := by
      exact_mod_cast congrArg (fun z : ℤ => ((z : ℚ)))
        (by omega : u - u / 86400 * 86400 = u % 86400)
    linarith
  rw [hX]
  have hmul : ((u % 86400 : ℤ) : ℚ) * ((86400 : ℤ) : ℚ) / 86400 = ((u % 86400 : ℤ) : ℚ) := by
    push_cast
    field_simp
  rw [hmul]
  have hfl : ⌊((u % 86400 : ℤ) : ℚ) + 1/2⌋ = u % 86400 := by
    rw [Int.floor_int_add]
    norm_num
  rw [hfl, if_neg (by omega : ¬ (86400 ≤ u % 86400))]

theorem intCtor_UTC_flat {n : ℤ} (h0 : 0 ≤ n) (hsz : n ≤ 9190000000000000000)
    (hth : 63072000 < n / 1000000000)
    (hflat : offIntZ (40587 + n / 1000000000 / 86400 + 1)
      = offIntZ (40587 + n / 1000000000 / 86400)) :
    DateTime.intCtor n Timescale.UTC
      = Except.ok (((n + offIntZ (40587 + n / 1000000000 / 86400) * 1000000000 : ℤ) : ℚ)
          / 1000000000) := by
  have hnat : ((n.natAbs : ℕ) : ℤ) = n := Int.natAbs_of_nonneg h0
  have hp64 : (10 : ℕ) ^ 64
      = 10000000000000000000000000000000000000000000000000000000000000000 := by norm_num
  have hna64 : n.natAbs < 10 ^ 64 := by omega
  have hp9 : (10 : ℕ) ^ 9 = 1000000000 := by norm_num
  have hfrz : ((lastNine n.natAbs : ℕ) : ℤ) = n % 1000000000 := by
    rw [lastNine_eq_mod hna64, hp9]
    omega
  have hpy : pyInt ((n : ℚ) / 1000000000) = n / 1000000000 := pyInt_div_billion h0
  set u : ℤ := n / 1000000000 with hu
  set d : ℤ := 40587 + u / 86400 with hd
  set off : ℤ := offIntZ d with hoff
  have hd41 : 41317 ≤ d := by omega
  have hoffb := offIntZ_bounds d
  have hdu : utcDayOfUnix ((u : ℤ) : ℚ) = d := by
    rw [utcDayOfUnix_int u]
  have htu : taiOfUnix ((u : ℤ) : ℚ) = ((u : ℤ) : ℚ) + ((off : ℤ) : ℚ) := by
    have h := taiOfUnix_flat (u := ((u : ℤ) : ℚ)) (by rw [hdu]; exact hd41)
      (by rw [hdu]; exact hflat)
    rw [hdu] at h
    exact h
  have hdel : taiOfUnix ((u : ℤ) : ℚ) - unixOfTai (taiOfUnix ((u : ℤ) : ℚ))
      = ((off : ℤ) : ℚ) := by
    rw [unixOfTai_taiOfUnix, htu]
    ring
  have hpyoff : pyInt (((off : ℤ) : ℚ) + 1/2) = off := by
    rw [pyInt_of_nonneg (by
      have : (0:ℚ) ≤ ((off : ℤ) : ℚ) := by exact_mod_cast (by omega : (0:ℤ) ≤ off)
      linarith), Int.floor_int_add]
    norm_num
  simp only [DateTime.intCtor, hfrz, hpy, hdel, if_pos hth, hpyoff]
  rw [exceptOkBind]
  by_cases hf : n % 1000000000 = 0
  · rw [hf, if_neg (by simp)]
    congr 1
    rw [eq_div_iff (by norm_num : (1000000000 : ℚ) ≠ 0)]
    push_cast
    exact_mod_cast (by omega : (u + off) * 1000000000 = n + off * 1000000000)
  · rw [if_pos hf, if_pos (by rw [decide_eq_true_eq]; exact h0)]
    have hUDS := utcDaySec_flat_int hd41 hoff hflat
    have hisot : isotSec Timescale.UTC (((u : ℤ) : ℚ) + ((off : ℤ) : ℚ))
        = isoCharsSec (mjdToYmd d).1 (mjdToYmd d).2.1 (mjdToYmd d).2.2
            ((hmsOfSec (u % 86400)).1).toNat ((hmsOfSec (u % 86400)).2.1).toNat
            ((hmsOfSec (u % 86400)).2.2).toNat := by
      rw [isotSec_UTC_fields, hUDS]
    obtain ⟨y, mo, dd, hymd⟩ : ∃ y mo dd, mjdToYmd d = (y, mo, dd) := ⟨_, _, _, rfl⟩
    have hdaylo : (0:ℤ) ≤ d := by omega
    have hdayhi : d < 150000 := by omega
    obtain ⟨hy1, hy2, hmo1, hmo2, hdd1, hdd2⟩ := mjdToYmd_bounds hdaylo hdayhi hymd
    have hsod0 : (0:ℤ) ≤ u % 86400 := by omega
    have hsod1 : u % 86400 < 86400 := by omega
    obtain ⟨hc1, hc2, hc3, hhb, hmib, hsb, hrec⟩ := hmsOfSec_spec hsod0 hsod1
    rw [hisot, hymd, hc1, hc2, hc3]
    have hH : (u % 86400 / 3600).toNat ≤ 23 := by omega
    have hMI : (u % 86400 % 3600 / 60).toNat ≤ 59 := by omega
    have hS : (u % 86400 % 60).toNat ≤ 60 := by omega
    have hfr9 : (n % 1000000000).toNat < 10 ^ 9 := by
      rw [hp9]
      omega
    have hparse := parseIsot_render Timescale.UTC y mo dd
      (u % 86400 / 3600).toNat (u % 86400 % 3600 / 60).toNat (u % 86400 % 60).toNat
      (n % 1000000000).toNat (by omega) hmo1 hmo2 hdd1 hdd2 hH hMI hS hfr9
    rw [hparse]
    have hmjd : ymdToMjd y mo dd = d := ymdToMjd_mjdToYmd (by omega) hymd
    show Except.ok (instantOfFields Timescale.UTC y mo dd (u % 86400 / 3600).toNat
        (u % 86400 % 3600 / 60).toNat
        (((u % 86400 % 60).toNat : ℚ) + ((n % 1000000000).toNat : ℚ) / 10 ^ 9))
      = Except.ok (((n + off * 1000000000 : ℤ) : ℚ) / 1000000000)
    congr 1
    rw [instantOfFields, hmjd]
    rw [tai0_len_flat hd41 hflat]
    have hdisp : dispLen d = 86400 := by
      rw [dispLen, if_pos hd41, hflat]
      ring
    rw [hdisp, tai0_flat_int hd41 hoff]
    have e1 : ((u % 86400 / 3600).toNat : ℚ) = ((u % 86400 / 3600 : ℤ) : ℚ) := by
      exact_mod_cast congrArg (fun z : ℤ => ((z : ℚ)))
        (Int.toNat_of_nonneg (by omega : (0:ℤ) ≤ u % 86400 / 3600))
    have e2 : ((u % 86400 % 3600 / 60).toNat : ℚ) = ((u % 86400 % 3600 / 60 : ℤ) : ℚ) := by
      exact_mod_cast congrArg (fun z : ℤ => ((z : ℚ)))
        (Int.toNat_of_nonneg (by omega : (0:ℤ) ≤ u % 86400 % 3600 / 60))
    have e3 : ((u % 86400 % 60).toNat : ℚ) = ((u % 86400 % 60 : ℤ) : ℚ) := by
      exact_mod_cast congrArg (fun z : ℤ => ((z : ℚ)))
        (Int.toNat_of_nonneg (by omega : (0:ℤ) ≤ u % 86400 % 60))
    have e4 : ((n % 1000000000).toNat : ℚ) = ((n % 1000000000 : ℤ) : ℚ) := by
      exact_mod_cast congrArg (fun z : ℤ => ((z : ℚ)))
        (Int.toNat_of_nonneg (by omega : (0:ℤ) ≤ n % 1000000000))
    rw [e1, e2, e3, e4]
    have hsodq : (3600 : ℚ) * ((u % 86400 / 3600 : ℤ) : ℚ)
        + 60 * ((u % 86400 % 3600 / 60 : ℤ) : ℚ) + ((u % 86400 % 60 : ℤ) : ℚ)
        = ((u % 86400 : ℤ) : ℚ) := by
      exact_mod_cast congrArg (fun z : ℤ => ((z : ℚ)))
        (by omega : 3600 * (u % 86400 / 3600) + 60 * (u % 86400 % 3600 / 60)
          + u % 86400 % 60 = u % 86400)
    have hnq : ((n + off * 1000000000 : ℤ) : ℚ)
        = (((u / 86400 * 86400 : ℤ) : ℚ) + ((u % 86400 : ℤ) : ℚ)
          + ((off : ℤ) : ℚ)) * 1000000000 + ((n % 1000000000 : ℤ) : ℚ) := by
      push_cast
      exact_mod_cast congrArg (fun z : ℤ => ((z : ℚ)))
        (by omega : n + off * 1000000000
          = (u / 86400 * 86400 + u % 86400 + off) * 1000000000 + n % 1000000000)
    rw [eq_div_iff (by norm_num : (1000000000 : ℚ) ≠ 0), hnq]
    have h109 : ((10:ℚ) ^ 9) = 1000000000 := by norm_num
    rw [h109]
    field_simp
    linarith [hsodq]

theorem nsecs_UTC_flat {n : ℤ} (h0 : 0 ≤ n) (hsz : n ≤ 9190000000000000000)
    (hth : 63072000 < n / 1000000000)
    (hflat : offIntZ (40587 + n / 1000000000 / 86400 + 1)
      = offIntZ (40587 + n / 1000000000 / 86400)) :
    DateTime.nsecs (((n + offIntZ (40587 + n / 1000000000 / 86400) * 1000000000 : ℤ) : ℚ)
        / 1000000000) (some (PyVal.scaleE Timescale.UTC)) = Except.ok n := by
  set u : ℤ := n / 1000000000 with hu
  set d : ℤ := 40587 + u / 86400 with hd
  set off : ℤ := offIntZ d with hoff
  set m : ℤ := n + off * 1000000000 with hm
  have hoffb := offIntZ_bounds d
  have hd41 : 41317 ≤ d := by omega
  have hm0 : 0 ≤ m := by omega
  have hmsz : m ≤ 9200000000000000000 := by omega
  have hτsplit : ((m : ℤ) : ℚ) / 1000000000
      = ((u : ℤ) : ℚ) + ((off : ℤ) : ℚ) + ((n % 1000000000 : ℤ) : ℚ) / 1000000000 := by
    rw [div_eq_iff (by norm_num : (1000000000 : ℚ) ≠ 0)]
    have hc : ((m : ℤ) : ℚ) = (((u + off) * 1000000000 + n % 1000000000 : ℤ) : ℚ) := by
      exact_mod_cast congrArg (fun z : ℤ => ((z : ℚ)))
        (by omega : m = (u + off) * 1000000000 + n % 1000000000)
    rw [hc]
    push_cast
    ring
  have hf0 : (0:ℚ) ≤ ((n % 1000000000 : ℤ) : ℚ) / 1000000000 := by
    apply div_nonneg _ (by norm_num)
    exact_mod_cast (by omega : (0:ℤ) ≤ n % 1000000000)
  have hf1 : ((n % 1000000000 : ℤ) : ℚ) / 1000000000 < 1 := by
    rw [div_lt_one (by norm_num)]
    exact_mod_cast (by omega : n % 1000000000 < 1000000000)
  have hday : utcDayOfTai (((m : ℤ) : ℚ) / 1000000000) = d := by
    rw [hτsplit]
    exact utcDayOfTai_flat_int hd41 hoff hflat hf0 hf1
  have huq : ((u : ℤ) : ℚ) + ((n % 1000000000 : ℤ) : ℚ) / 1000000000
      = ((n : ℤ) : ℚ) / 1000000000 := by
    rw [eq_div_iff (by norm_num : (1000000000 : ℚ) ≠ 0)]
    have hc : ((n : ℤ) : ℚ) = ((u * 1000000000 + n % 1000000000 : ℤ) : ℚ) := by
      exact_mod_cast congrArg (fun z : ℤ => ((z : ℚ)))
        (by omega : n = u * 1000000000 + n % 1000000000)
    rw [hc]
    push_cast
    ring
  have hux : unixOfTai (((m : ℤ) : ℚ) / 1000000000) = ((n : ℤ) : ℚ) / 1000000000 := by
    have h := unixOfTai_flat (τ := ((m : ℤ) : ℚ) / 1000000000) (by rw [hday]; exact hd41)
      (by rw [hday]; exact hflat)
    rw [hday] at h
    rw [h, hτsplit]
    linarith [huq]
  have hthr : 63072000 < unixOfTai (((m : ℤ) : ℚ) / 1000000000) := by
    rw [hux]
    have h : ((63072001 : ℤ) : ℚ) ≤ ((n : ℤ) : ℚ) / 1000000000 := by
      rw [le_div_iff (by norm_num : (0:ℚ) < 1000000000)]
      exact_mod_cast (by omega : (63072001 : ℤ) * 1000000000 ≤ n)
    have h2 : ((63072001 : ℤ) : ℚ) = 63072001 := by norm_num
    linarith [h, h2.symm.le]
  have hpyux : pyInt (unixOfTai (((m : ℤ) : ℚ) / 1000000000)) = u := by
    rw [hux]
    exact pyInt_div_billion h0
  have hτ0 : (0:ℚ) ≤ (m : ℚ) / 1000000000 := by positivity
  have hτhi : (m : ℚ) / 1000000000 ≤ 9300000000 := by
    rw [div_le_iff (by norm_num : (0:ℚ) < 1000000000)]
    exact_mod_cast (by omega : m ≤ (9300000000 : ℤ) * 1000000000)
  obtain ⟨hd0, hd1⟩ := uniformDayNs_day_bounds hτ0 hτhi
  have hy := mjdToYmd_year_lt hd0 hd1
  have htot : ⌊(((m : ℚ) / 1000000000) + 0) * 1000000000 + 1/2⌋ = m := by
    rw [add_zero, div_mul_cancel₀ _ (by norm_num : (1000000000:ℚ) ≠ 0), Int.floor_int_add]
    norm_num
  have hUD : uniformDayNs 0 ((m : ℚ) / 1000000000)
      = (40587 + m / 86400000000000, m % 86400000000000) := by
    simp only [uniformDayNs, htot]
  have hfrh : (hmsOfNs (m % 86400000000000)).2.2 % 1000000000 = m % 1000000000 ∧
      0 ≤ (hmsOfNs (m % 86400000000000)).2.2 := by
    simp only [hmsOfNs]
    omega
  set F0 : ℕ := (((hmsOfNs (uniformDayNs 0 ((m : ℚ) / 1000000000)).2).2.2)
    % 1000000000).toNat with hF0
  have hF0v : ((F0 : ℕ) : ℤ) = m % 1000000000 := by
    rw [hF0, hUD]
    rw [Int.toNat_of_nonneg (by omega : (0:ℤ) ≤ (hmsOfNs (m % 86400000000000)).2.2 % 1000000000)]
    exact hfrh.1
  have hslice : pySlice (isotNs Timescale.TAI ((m : ℚ) / 1000000000)) 20 29
      = padDigits 9 F0 := by
    rw [isotNs_TAI_fields]
    exact iso_slice hy
  have hiso : (if 63072000 < unixOfTai ((m : ℚ) / 1000000000)
      then isotNs Timescale.TAI ((m : ℚ) / 1000000000)
      else isotNs Timescale.UTC ((m : ℚ) / 1000000000))
      = isotNs Timescale.TAI ((m : ℚ) / 1000000000) := if_pos hthr
  have hint0 : 0 ≤ u := by omega
  have hp64 : (10 : ℕ) ^ 64
      = 10000000000000000000000000000000000000000000000000000000000000000 := by norm_num
  have hsz' : u.natAbs < 10 ^ 64 := by
    rw [hp64]
    omega
  rw [nsecs_eq_UTC, hiso, hslice, hpyux, pyLong_concat hint0 hsz' F0]
  have hFlt : F0 < 10 ^ 9 := by
    have h9 : (10 : ℕ) ^ 9 = 1000000000 := by norm_num
    omega
  rw [Nat.mod_eq_of_lt hFlt]
  have h9z : (10 : ℤ) ^ 9 = 1000000000 := by norm_num
  rw [h9z, hF0v]
  have hfin : u * 1000000000 + m % 1000000000 = n := by omega
  rw [hfin]

set_option maxRecDepth 4000 in
/-- C3, amended.  The same-scale round trip holds exactly at the test
suite's modern-era instants (`testNsecsTAI`, `testNsecs`,
`testCrossBoundaryNsecs`), whose whole-second nanosecond counts have at
most 53 significant bits and are therefore exact in the program's float64
arithmetic: reading `nsecs` back in the construction scale returns the
input, for TAI, for UTC on an ordinary day, and for UTC two seconds before
an inserted leap second.  No unrestricted 64-bit statement is true of the
program: pre-1972 instants read back the smeared UTC fraction (see the
counterexample at n = 0), and for inputs whose fractional part lies within
a float64 unit in the last place of a second boundary the program's
`int(nsecs/1e9)` lands in the adjacent second, which this exact-rational
model deliberately does not reproduce. -/
theorem claim_C3_roundtrip :
    (DateTime.ctor [PyVal.int 1192755506000000000, PyVal.scaleE Timescale.TAI]
        = Except.ok (1192755506 : ℚ) ∧
      DateTime.nsecs (1192755506 : ℚ) (some (PyVal.scaleE Timescale.TAI))
        = Except.ok 1192755506000000000) ∧
    (DateTime.ctor [PyVal.int 1192755473000000000, PyVal.scaleE Timescale.UTC]
        = Except.ok (1192755506 : ℚ) ∧
      DateTime.nsecs (1192755506 : ℚ) (some (PyVal.scaleE Timescale.UTC))
        = Except.ok 1192755473000000000) ∧
    (DateTime.ctor [PyVal.int 631151998000000000, PyVal.scaleE Timescale.UTC]
        = Except.ok (631152023 : ℚ) ∧
      DateTime.nsecs (631152023 : ℚ) (some (PyVal.scaleE Timescale.UTC))
        = Except.ok 631151998000000000) := by
  refine ⟨⟨?_, ?_⟩, ⟨?_, ?_⟩, ⟨?_, ?_⟩⟩ <;> decide

set_option maxRecDepth 4000 in
/-- C3, counterexample to the claim as stated over all 64-bit inputs.
DateTime(0, TAI) stores instant 0, but `nsecs(TAI)` reads back 999918240:
before 1972 the fractional digits come from the smeared pre-leap UTC
rendering, so the same-scale round trip is not the identity. -/
theorem claim_C3_counterexample :
    DateTime.ctor [PyVal.int 0, PyVal.scaleE Timescale.TAI] = Except.ok (0 : ℚ) ∧
    DateTime.nsecs (0 : ℚ) (some (PyVal.scaleE Timescale.TAI)) = Except.ok 999918240 ∧
    (999918240 : ℤ) ≠ 0 := by
  refine ⟨?_, ?_, ?_⟩ <;> decide

end RatReducible

end LsstX
